import Mathlib

/-!
The package `compares` of datadiff.

A shallow embedding of `src/compares/compares.go` and the properties of
`AreEqual`, `IsEqual` and `Compare` for the JSON and the YAML comparer.

Go values are modelled as follows.

* A `[]byte` is `Option (List Byte)`: `none` is the nil slice, `some bs` a
  non-nil slice (possibly empty).
* An `error` is `Option GoError`: `none` is the nil error.
* A `[]string` / `[]any` result is `Option (List String)`: `none` is the nil
  slice, `some ks` a slice made by `make` and grown by `append`.
* A `map[string]any` is a list of entries with pairwise distinct keys; the
  order of the list is the order in which `range` visits the map, so a
  statement for all lists is a statement for every iteration order.
* A run-time panic is the outcome `Outcome.panic`.
* `encoding/json` and `gopkg.in/yaml.v2` are parameters of `Compare`.
-/

namespace Compares

/-! ## Data model -/

/-- One byte of a buffer. -/
abbrev Byte := Fin 256

/-- A Go byte slice: `none` is nil, `some bs` is non-nil with contents `bs`. -/
abbrev Buffer := Option (List Byte)

/-- Go error values that the package returns. -/
inductive GoError
  /-- The package variable `ErrOnlyOneItem`. -/
  | ErrOnlyOneItem
  /-- The package variable `ErrNoItem`. -/
  | ErrNoItem
  /-- The value of `errors.New(msg)`. -/
  | errorsNew (msg : String)
  /-- An error produced by a decoding library. -/
  | decoder (msg : String)
  deriving DecidableEq, Repr

/-- What a call does: it returns a value, or it panics at run time. -/
inductive Outcome (α : Type)
  | ret (a : α)
  | panic
  deriving DecidableEq, Repr

/-- The dynamic values the decoders store in an `any`:
`nil`, `bool`, Go integers (yaml.v2 only), `float64` given by its IEEE-754 bit
pattern, `string`, `[]interface{}`, `map[string]interface{}` (encoding/json)
and `map[interface{}]interface{}` (yaml.v2). -/
inductive Value
  | null
  | bool (b : Bool)
  | int (i : Int)
  | float64 (bits : Nat)
  | str (s : String)
  | seq (xs : List Value)
  | obj (kvs : List (String × Value))
  | ymap (kvs : List (Value × Value))

/-- The bit pattern is a NaN: exponent all ones and a non-zero fraction. -/
def f64IsNaN (bits : Nat) : Bool :=
  ((bits % 2 ^ 64) / 2 ^ 52) % 2 ^ 11 == 2047 && (bits % 2 ^ 52) != 0

/-- The bit pattern is +0 or -0. -/
def f64IsZero (bits : Nat) : Bool :=
  bits % 2 ^ 63 == 0

/-- Go's `==` on two `float64`: a NaN equals nothing, the two zeros are equal,
every other value equals only itself. -/
def f64Eq (a b : Nat) : Bool :=
  !f64IsNaN a && !f64IsNaN b && (a % 2 ^ 64 == b % 2 ^ 64 || (f64IsZero a && f64IsZero b))

/-- Go's `==` on two interface values: values of different dynamic types are
unequal, values of one comparable type are compared, and two values of one
uncomparable type (slice or map) make the comparison panic. -/
def ifaceEq : Value → Value → Outcome Bool
  | .null, .null => .ret true
  | .bool a, .bool b => .ret (a == b)
  | .int a, .int b => .ret (a == b)
  | .float64 a, .float64 b => .ret (f64Eq a b)
  | .str a, .str b => .ret (a == b)
  | .seq _, .seq _ => .panic
  | .obj _, .obj _ => .panic
  | .ymap _, .ymap _ => .panic
  | _, _ => .ret false

/-- Go's `val != value` on two interface values. -/
def ifaceNe (val value : Value) : Outcome Bool :=
  match ifaceEq val value with
  | .ret b => .ret (!b)
  | .panic => .panic

/-- A Go `map[string]any`: entries in iteration order, keys pairwise distinct. -/
structure GoMap where
  entries : List (String × Value)
  nodup : (entries.map Prod.fst).Nodup

/-- The keys of the map, in iteration order. -/
def GoMap.keys (m : GoMap) : List String := m.entries.map Prod.fst

/-- The index expression `m[key]` with the comma-ok form: the value, if present. -/
def GoMap.get? (m : GoMap) (key : String) : Option Value := m.entries.lookup key

/-- The five results of `Compare`. -/
structure DiffResult where
  equal : Bool
  newKeys : Option (List String)
  delKeys : Option (List String)
  diffValueKeys : Option (List String)
  err : Option GoError
  deriving DecidableEq, Repr

/-- Go's `len` on a slice; the nil slice has length 0. -/
def sliceLen (s : Option (List String)) : Nat :=
  match s with
  | none => 0
  | some ks => ks.length

/-- The elements of a slice; the nil slice has none. -/
def sliceElems (s : Option (List String)) : List String :=
  match s with
  | none => []
  | some ks => ks

/-- The package `encoding/json` as `Compare` uses it: `json.Valid` and
`json.Unmarshal` into an empty `map[string]any`. `Unmarshal` checks that
its input is well-formed with the scanner of `Valid` before it decodes, so it
succeeds on valid input only. -/
structure JsonLib where
  Valid : List Byte → Bool
  Unmarshal : List Byte → Except GoError GoMap
  unmarshal_valid : ∀ b m, Unmarshal b = .ok m → Valid b = true

/-- The package `gopkg.in/yaml.v2` as `Compare` uses it: `yaml.Unmarshal`
into an empty `map[string]any`. -/
structure YamlLib where
  Unmarshal : List Byte → Except GoError GoMap

/-! ## AreEqual and IsEqual -/

/-- `reflect.DeepEqual` on two `[]byte`: both nil, or both non-nil with the
same length and the same bytes. -/
def DeepEqual (a b : Buffer) : Bool := decide (a = b)

/-- The `for` loop of `AreEqual` (lines 39-48 and 142-151): `data1` is the
previous item, `rest` the items from index `i` on, `equal` the flag so far. -/
def AreEqual.loop : Buffer → List Buffer → Nat → Bool → Bool × Nat × Option GoError
  | _, [], _, equal => (equal, 0, none)
  | data1, data2 :: rest, i, equal =>
    if DeepEqual data1 data2 then AreEqual.loop data2 rest (i + 1) true
    else (equal, i, none)

/-- `(*JsonCompares).AreEqual`. -/
def JsonCompares.AreEqual (items : List Buffer) : Bool × Nat × Option GoError :=
  match items with
  | [] => (false, 0, some GoError.ErrNoItem)
  | [_] => (false, 0, some GoError.ErrOnlyOneItem)
  | data1 :: rest => AreEqual.loop data1 rest 1 false

/-- `(*YamlCompares).AreEqual`. -/
def YamlCompares.AreEqual (items : List Buffer) : Bool × Nat × Option GoError :=
  match items with
  | [] => (false, 0, some GoError.ErrNoItem)
  | [_] => (false, 0, some GoError.ErrOnlyOneItem)
  | data1 :: rest => AreEqual.loop data1 rest 1 false

/-- `(*JsonCompares).IsEqual`. -/
def JsonCompares.IsEqual (x y : Buffer) : Bool × Option GoError :=
  if x = none then (false, some (GoError.errorsNew "x is nil item"))
  else if y = none then (false, some (GoError.errorsNew "y is nil item"))
  else if DeepEqual x y then (true, none)
  else (false, none)

/-- `(*YamlCompares).IsEqual`. -/
def YamlCompares.IsEqual (x y : Buffer) : Bool × Option GoError :=
  if x = none then (false, some (GoError.errorsNew "x is nil item"))
  else if y = none then (false, some (GoError.errorsNew "y is nil item"))
  else if DeepEqual x y then (true, none)
  else (false, none)

/-! ## Compare -/

/-- The first loop of `Compare` (lines 103-110 and 197-204): it ranges over
the entries of `xmap` that are left and appends to `delKeys` and
`diffValueKeys`. -/
def Compare.delDiffLoop (ymap : GoMap) :
    List (String × Value) → List String → List String → Outcome (List String × List String)
  | [], delKeys, diffValueKeys => .ret (delKeys, diffValueKeys)
  | (key, value) :: rest, delKeys, diffValueKeys =>
    match ymap.get? key with
    | none => Compare.delDiffLoop ymap rest (delKeys ++ [key]) diffValueKeys
    | some val =>
      match ifaceNe val value with
      | .panic => .panic
      | .ret true => Compare.delDiffLoop ymap rest delKeys (diffValueKeys ++ [key])
      | .ret false => Compare.delDiffLoop ymap rest delKeys diffValueKeys

/-- The second loop of `Compare` (lines 112-117 and 205-210): it ranges over
the entries of `ymap` that are left and appends to `newKeys`. -/
def Compare.newLoop (xmap : GoMap) : List (String × Value) → List String → List String
  | [], newKeys => newKeys
  | (key, _) :: rest, newKeys =>
    match xmap.get? key with
    | none => Compare.newLoop xmap rest (newKeys ++ [key])
    | some _ => Compare.newLoop xmap rest newKeys

/-- The part of `Compare` after both documents are decoded (lines 102-122,
and the same text at lines 196-214). -/
def Compare.reconcile (xmap ymap : GoMap) : Outcome DiffResult :=
  match Compare.delDiffLoop ymap xmap.entries [] [] with
  | .panic => .panic
  | .ret (delKeys, diffValueKeys) =>
    let newKeys := Compare.newLoop xmap ymap.entries []
    if newKeys.length == 0 && delKeys.length == 0 && diffValueKeys.length == 0 then
      .ret ⟨true, none, none, none, none⟩
    else
      .ret ⟨false, some newKeys, some delKeys, some diffValueKeys, none⟩

/-- The result `false, nil, nil, nil, err` of a failed `Compare`. -/
def Compare.fail (err : GoError) : DiffResult := ⟨false, none, none, none, some err⟩

/-- `(*JsonCompares).Compare`. -/
def JsonCompares.Compare (J : JsonLib) (x y : Buffer) : Outcome DiffResult :=
  match x with
  | none => .ret (Compare.fail (GoError.errorsNew "x is nil item"))
  | some xb =>
    match y with
    | none => .ret (Compare.fail (GoError.errorsNew "y is nil item"))
    | some yb =>
      if !J.Valid xb then .ret (Compare.fail (GoError.errorsNew "x is invalid json"))
      else if !J.Valid yb then .ret (Compare.fail (GoError.errorsNew "x is invalid json"))
      else
        match J.Unmarshal xb with
        | .error err => .ret (Compare.fail err)
        | .ok xmap =>
          match J.Unmarshal yb with
          | .error err => .ret (Compare.fail err)
          | .ok ymap => Compare.reconcile xmap ymap

/-- `(*YamlCompares).Compare`. -/
def YamlCompares.Compare (Y : YamlLib) (x y : Buffer) : Outcome DiffResult :=
  match x with
  | none => .ret (Compare.fail (GoError.errorsNew "x is nil item"))
  | some xb =>
    match y with
    | none => .ret (Compare.fail (GoError.errorsNew "y is nil item"))
    | some yb =>
      match Y.Unmarshal xb with
      | .error err => .ret (Compare.fail err)
      | .ok xmap =>
        match Y.Unmarshal yb with
        | .error err => .ret (Compare.fail err)
        | .ok ymap => Compare.reconcile xmap ymap

/-! ## Reading the two loops of Compare

Closed forms of what the loops append, used to state and prove the
properties of `Compare`. -/

/-- The entry `(key, value)` of `xmap` meets a value of the same uncomparable
dynamic type in `ymap`, so that `val != value` panics. -/
def Compare.entryPanics (ymap : GoMap) (kv : String × Value) : Bool :=
  match ymap.get? kv.1 with
  | none => false
  | some val => decide (ifaceNe val kv.2 = Outcome.panic)

/-- The entry `(key, value)` of `xmap` has a value in `ymap` that `!=` reports
as different. -/
def Compare.entryDiffers (ymap : GoMap) (kv : String × Value) : Bool :=
  match ymap.get? kv.1 with
  | none => false
  | some val => decide (ifaceNe val kv.2 = Outcome.ret true)

/-- The key is absent from the map. -/
def Compare.absent (m : GoMap) (key : String) : Bool := (m.get? key).isNone

/-- The keys of the given entries of `xmap` that are absent from `ymap`. -/
def Compare.delOf (ymap : GoMap) (l : List (String × Value)) : List String :=
  (l.map Prod.fst).filter (Compare.absent ymap)

/-- The keys of the given entries of `xmap` whose value differs in `ymap`. -/
def Compare.diffOf (ymap : GoMap) (l : List (String × Value)) : List String :=
  (l.filter (Compare.entryDiffers ymap)).map Prod.fst

/-- The keys of the given entries of `ymap` that are absent from `xmap`. -/
def Compare.newOf (xmap : GoMap) (l : List (String × Value)) : List String :=
  (l.map Prod.fst).filter (Compare.absent xmap)

/-- Both values are sequences, or both are nested maps of the same library. -/
def Value.sameNestedKind : Value → Value → Bool
  | .seq _, .seq _ => true
  | .obj _, .obj _ => true
  | .ymap _, .ymap _ => true
  | _, _ => false

/-- The value is a scalar: null, a bool, a number or a string. -/
def Value.isScalar : Value → Bool
  | .seq _ => false
  | .obj _ => false
  | .ymap _ => false
  | _ => true

/-- The value is a `float64` NaN. -/
def Value.isNaN : Value → Bool
  | .float64 bits => f64IsNaN bits
  | _ => false

/-- The invariant of a diff result: `equal` is true exactly when there is no
error and the three key slices are empty. -/
def DiffResult.Invariant (r : DiffResult) : Prop :=
  r.equal = true ↔
    (r.err = none ∧ sliceLen r.newKeys = 0 ∧ sliceLen r.delKeys = 0 ∧
      sliceLen r.diffValueKeys = 0)

/-- The key slices are returned only with a real difference: a result with
an error or with `equal = true` has three nil slices, and a result with a
non-nil slice has `equal = false`, a nil error, three non-nil slices and at
least one key in them. -/
def DiffResult.KeysOnlyWithDifference (r : DiffResult) : Prop :=
  ((r.err ≠ none ∨ r.equal = true) →
    r.newKeys = none ∧ r.delKeys = none ∧ r.diffValueKeys = none) ∧
  ((r.newKeys ≠ none ∨ r.delKeys ≠ none ∨ r.diffValueKeys ≠ none) →
    r.equal = false ∧ r.err = none ∧
    r.newKeys ≠ none ∧ r.delKeys ≠ none ∧ r.diffValueKeys ≠ none ∧
    0 < sliceLen r.newKeys + sliceLen r.delKeys + sliceLen r.diffValueKeys)

/-- The result lists the keys by which `ymap` differs from `xmap`: the new keys
are those of `ymap` absent from `xmap`, the deleted keys those of `xmap` absent
from `ymap`, the changed keys those present in both whose values `!=` reports
as different; each slice lists a key once. -/
def DiffResult.Classifies (xmap ymap : GoMap) (r : DiffResult) : Prop :=
  (∀ k, k ∈ sliceElems r.newKeys ↔ xmap.get? k = none ∧ (ymap.get? k).isSome = true) ∧
  (∀ k, k ∈ sliceElems r.delKeys ↔ (xmap.get? k).isSome = true ∧ ymap.get? k = none) ∧
  (∀ k, k ∈ sliceElems r.diffValueKeys ↔
    ∃ value val, xmap.get? k = some value ∧ ymap.get? k = some val ∧
      ifaceNe val value = Outcome.ret true) ∧
  (sliceElems r.newKeys).Nodup ∧ (sliceElems r.delKeys).Nodup ∧
  (sliceElems r.diffValueKeys).Nodup

/-- No key of both maps holds a sequence on both sides or a nested map on both
sides. -/
def GoMap.NoSharedNested (xmap ymap : GoMap) : Prop :=
  ∀ key value val, xmap.get? key = some value → ymap.get? key = some val →
    Value.sameNestedKind val value = false

/-- Every value of the map is a scalar. -/
def GoMap.AllScalar (m : GoMap) : Prop :=
  ∀ kv ∈ m.entries, kv.2.isScalar = true

/-- The two maps have the same keys and hold values that `==` reports as
equal under every key. -/
def GoMap.SameDocument (xmap ymap : GoMap) : Prop :=
  (∀ key, (xmap.get? key).isSome = (ymap.get? key).isSome) ∧
  (∀ key value val, xmap.get? key = some value → ymap.get? key = some val →
    ifaceEq value val = Outcome.ret true)

/-- No key is in two of the three key slices. -/
def DiffResult.KeysDisjoint (r : DiffResult) : Prop :=
  List.Disjoint (sliceElems r.newKeys) (sliceElems r.delKeys) ∧
  List.Disjoint (sliceElems r.newKeys) (sliceElems r.diffValueKeys) ∧
  List.Disjoint (sliceElems r.delKeys) (sliceElems r.diffValueKeys)

/-- The value is a `float64` zero, +0 or -0. -/
def Value.isFloatZero : Value → Bool
  | .float64 bits => f64IsZero bits
  | _ => false

/-- Two decoded scalars are the same value: both null, the same bool, the same
integer, the same string, or two `float64` with the same 64 bits. Values of
different dynamic types, and sequences and maps, are never the same scalar. -/
def Value.SameScalar : Value → Value → Prop
  | .null, .null => True
  | .bool a, .bool b => a = b
  | .int a, .int b => a = b
  | .float64 a, .float64 b => a % 2 ^ 64 = b % 2 ^ 64
  | .str a, .str b => a = b
  | _, _ => False

/-- The two maps have the same keys and hold the same scalar under every key:
equality of two decoded documents whose values are scalars. -/
def GoMap.SameScalars (xmap ymap : GoMap) : Prop :=
  (∀ key, (xmap.get? key).isSome = (ymap.get? key).isSome) ∧
  (∀ key value val, xmap.get? key = some value → ymap.get? key = some val →
    Value.SameScalar value val)

/-- The two maps have the same keys and under every key hold the same scalar,
which is not NaN, or two `float64` zeros (+0 and -0 in either order). -/
def GoMap.SameScalarsUpToFloats (xmap ymap : GoMap) : Prop :=
  (∀ key, (xmap.get? key).isSome = (ymap.get? key).isSome) ∧
  (∀ key value val, xmap.get? key = some value → ymap.get? key = some val →
    (Value.SameScalar value val ∧ value.isNaN = false) ∨
      (value.isFloatZero = true ∧ val.isFloatZero = true))

/-! ## Sample documents

A finite fragment of the two decoding libraries: the documents used in the
examples of this development, each with the result the library gives for it.
Floats are written as bit patterns: `0x3FF0000000000000` is 1,
`0x4000000000000000` is 2, `0x4008000000000000` is 3. -/

/-- The JSON text `{"a":1,"b":2}`. -/
def jsonAB : List Byte := [123, 34, 97, 34, 58, 49, 44, 34, 98, 34, 58, 50, 125]

/-- The JSON text `{"b":2,"c":3}`. -/
def jsonBC : List Byte := [123, 34, 98, 34, 58, 50, 44, 34, 99, 34, 58, 51, 125]

/-- The JSON text `{"a":1}`. -/
def jsonA1 : List Byte := [123, 34, 97, 34, 58, 49, 125]

/-- The JSON text `{"a":2}`. -/
def jsonA2 : List Byte := [123, 34, 97, 34, 58, 50, 125]

/-- The JSON text `{"a":[1]}`. -/
def jsonSeq1 : List Byte := [123, 34, 97, 34, 58, 91, 49, 93, 125]

/-- The JSON text `{"a":[2]}`. -/
def jsonSeq2 : List Byte := [123, 34, 97, 34, 58, 91, 50, 93, 125]

/-- The JSON text `{"a":{"b":1}}`. -/
def jsonObj1 : List Byte := [123, 34, 97, 34, 58, 123, 34, 98, 34, 58, 49, 125, 125]

/-- The JSON text `{"a":{"b":2}}`. -/
def jsonObj2 : List Byte := [123, 34, 97, 34, 58, 123, 34, 98, 34, 58, 50, 125, 125]

/-- The JSON text `[1]`, well-formed but not an object. -/
def jsonArray : List Byte := [91, 49, 93]

/-- The JSON text `{}`. -/
def jsonEmpty : List Byte := [123, 125]

/-- The malformed JSON text `{`. -/
def jsonBroken : List Byte := [123]

/-- What `json.Unmarshal` gives for the well-formed sample documents. -/
def sampleJsonTable : List (List Byte × Except GoError GoMap) :=
  [ (jsonAB, .ok ⟨[("a", .float64 0x3FF0000000000000), ("b", .float64 0x4000000000000000)],
      by decide⟩),
    (jsonBC, .ok ⟨[("b", .float64 0x4000000000000000), ("c", .float64 0x4008000000000000)],
      by decide⟩),
    (jsonA1, .ok ⟨[("a", .float64 0x3FF0000000000000)], by decide⟩),
    (jsonA2, .ok ⟨[("a", .float64 0x4000000000000000)], by decide⟩),
    (jsonSeq1, .ok ⟨[("a", .seq [.float64 0x3FF0000000000000])], by decide⟩),
    (jsonSeq2, .ok ⟨[("a", .seq [.float64 0x4000000000000000])], by decide⟩),
    (jsonObj1, .ok ⟨[("a", .obj [("b", .float64 0x3FF0000000000000)])], by decide⟩),
    (jsonObj2, .ok ⟨[("a", .obj [("b", .float64 0x4000000000000000)])], by decide⟩),
    (jsonArray, .error (GoError.decoder
      "json: cannot unmarshal array into Go value of type map[string]interface \x7b\x7d")),
    (jsonEmpty, .ok ⟨[], by decide⟩) ]

/-- The fragment of `encoding/json` on the sample documents; a buffer outside
the table stands for malformed input. -/
def sampleJson : JsonLib where
  Valid b := (sampleJsonTable.lookup b).isSome
  Unmarshal b :=
    match sampleJsonTable.lookup b with
    | some r => r
    | none => .error (GoError.decoder "unexpected end of JSON input")
  unmarshal_valid := by
    intro b m h
    cases hl : sampleJsonTable.lookup b with
    | none => simp [hl] at h
    | some r =>
      show (sampleJsonTable.lookup b).isSome = true
      rw [hl]
      rfl

/-- The YAML text `a: 1`. -/
def yamlA1 : List Byte := [97, 58, 32, 49]

/-- The YAML text `a: 2`. -/
def yamlA2 : List Byte := [97, 58, 32, 50]

/-- The YAML text `a: .nan`. -/
def yamlNaN : List Byte := [97, 58, 32, 46, 110, 97, 110]

/-- The YAML text `a: [1]`. -/
def yamlSeq1 : List Byte := [97, 58, 32, 91, 49, 93]

/-- The YAML text `a: [2]`. -/
def yamlSeq2 : List Byte := [97, 58, 32, 91, 50, 93]

/-- The YAML text `a: {b: 1}`. -/
def yamlMap1 : List Byte := [97, 58, 32, 123, 98, 58, 32, 49, 125]

/-- The YAML text `a: {b: 2}`. -/
def yamlMap2 : List Byte := [97, 58, 32, 123, 98, 58, 32, 50, 125]

/-- The YAML text `- 1`, well-formed but not a mapping. -/
def yamlList : List Byte := [45, 32, 49]

/-- What `yaml.Unmarshal` gives for the sample documents. -/
def sampleYamlTable : List (List Byte × Except GoError GoMap) :=
  [ (yamlA1, .ok ⟨[("a", .int 1)], by decide⟩),
    (yamlA2, .ok ⟨[("a", .int 2)], by decide⟩),
    (yamlNaN, .ok ⟨[("a", .float64 0x7FF8000000000001)], by decide⟩),
    (yamlSeq1, .ok ⟨[("a", .seq [.int 1])], by decide⟩),
    (yamlSeq2, .ok ⟨[("a", .seq [.int 2])], by decide⟩),
    (yamlMap1, .ok ⟨[("a", .ymap [(.str "b", .int 1)])], by decide⟩),
    (yamlMap2, .ok ⟨[("a", .ymap [(.str "b", .int 2)])], by decide⟩),
    (yamlList, .error (GoError.decoder
      "yaml: unmarshal errors:\n  line 1: cannot unmarshal !!seq into map[string]interface \x7b\x7d")) ]

/-- The fragment of `gopkg.in/yaml.v2` on the sample documents. -/
def sampleYaml : YamlLib where
  Unmarshal b :=
    match sampleYamlTable.lookup b with
    | some r => r
    | none => .error (GoError.decoder "yaml: could not find expected ':'")

/-! ## Facts about the loop of AreEqual -/

theorem DeepEqual_iff (a b : Buffer) : DeepEqual a b = true ↔ a = b := by
  simp [DeepEqual]

/-- The loop never produces an error. -/
theorem AreEqual.loop_err (rest : List Buffer) (data1 : Buffer) (i : Nat) (equal : Bool) :
    (AreEqual.loop data1 rest i equal).2.2 = none := by
  induction rest generalizing data1 i equal with
  | nil => rfl
  | cons data2 rest ih =>
    unfold AreEqual.loop
    split
    · exact ih _ _ _
    · rfl

/-- The loop stops at the first adjacent pair that differs: if the pair at
positions `k`, `k + 1` of `data1 :: rest` is the first one, the result is the
flag so far (true once a pair has matched) and the index `i + k`. -/
theorem AreEqual.loop_first_diff (rest : List Buffer) (data1 : Buffer) (i : Nat) (equal : Bool)
    (k : Nat) (hk : k < rest.length)
    (hsame : ∀ j, j < k → (data1 :: rest)[j]? = (data1 :: rest)[j + 1]?)
    (hdiff : (data1 :: rest)[k]? ≠ (data1 :: rest)[k + 1]?) :
    AreEqual.loop data1 rest i equal = (equal || decide (0 < k), i + k, none) := by
  induction rest generalizing data1 i equal k with
  | nil => simp at hk
  | cons data2 rest ih =>
    unfold AreEqual.loop
    cases k with
    | zero =>
      have hne : data1 ≠ data2 := by
        intro h
        apply hdiff
        simp [h]
      have hd : DeepEqual data1 data2 = false := by
        simp [DeepEqual, hne]
      simp [hd]
    | succ k =>
      have h0 := hsame 0 (Nat.succ_pos k)
      have he : data1 = data2 := by simpa using h0
      have hd : DeepEqual data1 data2 = true := by
        simp [DeepEqual, he]
      have hk2 : k < rest.length := by simpa using hk
      have hs2 : ∀ j, j < k → (data2 :: rest)[j]? = (data2 :: rest)[j + 1]? := by
        intro j hj
        have := hsame (j + 1) (Nat.succ_lt_succ hj)
        simpa using this
      have hd2 : (data2 :: rest)[k]? ≠ (data2 :: rest)[k + 1]? := by
        intro h
        apply hdiff
        simpa using h
      rw [if_pos hd, ih data2 (i + 1) true k hk2 hs2 hd2]
      simp [Nat.add_assoc, Nat.add_comm 1 k]

/-- When every adjacent pair of `data1 :: rest` is equal the loop runs to the
end and returns index 0, with the flag true once a pair has been seen. -/
theorem AreEqual.loop_all_same (rest : List Buffer) (data1 : Buffer) (i : Nat) (equal : Bool)
    (hsame : ∀ j, j < rest.length → (data1 :: rest)[j]? = (data1 :: rest)[j + 1]?) :
    AreEqual.loop data1 rest i equal = (equal || decide (0 < rest.length), 0, none) := by
  induction rest generalizing data1 i equal with
  | nil => simp [AreEqual.loop]
  | cons data2 rest ih =>
    unfold AreEqual.loop
    have h0 := hsame 0 (by simp)
    have he : data1 = data2 := by simpa using h0
    have hd : DeepEqual data1 data2 = true := by
      simp [DeepEqual, he]
    have hs2 : ∀ j, j < rest.length → (data2 :: rest)[j]? = (data2 :: rest)[j + 1]? := by
      intro j hj
      have := hsame (j + 1) (by simpa using hj)
      simpa using this
    rw [if_pos hd, ih data2 (i + 1) true hs2]
    simp

/-- A loop that starts at a positive index and returns index 0 has found every
adjacent pair equal. -/
theorem AreEqual.loop_zero_index (rest : List Buffer) (data1 : Buffer) (i : Nat) (equal : Bool)
    (hi : 0 < i) (h0 : (AreEqual.loop data1 rest i equal).2.1 = 0) :
    ∀ j, j < rest.length → (data1 :: rest)[j]? = (data1 :: rest)[j + 1]? := by
  induction rest generalizing data1 i equal with
  | nil => intro j hj; simp at hj
  | cons data2 rest ih =>
    unfold AreEqual.loop at h0
    by_cases hd : DeepEqual data1 data2 = true
    · rw [if_pos hd] at h0
      have he : data1 = data2 := (DeepEqual_iff _ _).1 hd
      have hrec := ih data2 (i + 1) true (Nat.succ_pos i) h0
      intro j hj
      cases j with
      | zero => simp [he]
      | succ j =>
        have := hrec j (by simpa using hj)
        simpa using this
    · rw [if_neg hd] at h0
      simp at h0
      omega

/-! ## Facts about the loops of Compare -/

theorem ifaceEq_panic_iff (val value : Value) :
    ifaceEq val value = Outcome.panic ↔ Value.sameNestedKind val value = true := by
  cases val <;> cases value <;> simp [ifaceEq, Value.sameNestedKind]

theorem ifaceNe_panic_iff (val value : Value) :
    ifaceNe val value = Outcome.panic ↔ Value.sameNestedKind val value = true := by
  rw [← ifaceEq_panic_iff]
  unfold ifaceNe
  cases ifaceEq val value <;> simp

/-- The second loop appends the keys of `ymap` that `xmap` lacks. -/
theorem Compare.newLoop_eq (xmap : GoMap) (l : List (String × Value)) (newKeys : List String) :
    Compare.newLoop xmap l newKeys = newKeys ++ Compare.newOf xmap l := by
  induction l generalizing newKeys with
  | nil => simp [Compare.newLoop, Compare.newOf]
  | cons kv rest ih =>
    obtain ⟨key, value⟩ := kv
    unfold Compare.newLoop
    cases h : xmap.get? key with
    | none =>
      simp only [ih]
      simp [Compare.newOf, Compare.absent, h]
    | some v =>
      simp only [ih]
      simp [Compare.newOf, Compare.absent, h]

theorem Compare.delOf_cons (ymap : GoMap) (key : String) (value : Value)
    (rest : List (String × Value)) :
    Compare.delOf ymap ((key, value) :: rest) =
      if Compare.absent ymap key then key :: Compare.delOf ymap rest
      else Compare.delOf ymap rest := by
  simp [Compare.delOf, List.filter_cons]

theorem Compare.diffOf_cons (ymap : GoMap) (kv : String × Value)
    (rest : List (String × Value)) :
    Compare.diffOf ymap (kv :: rest) =
      if Compare.entryDiffers ymap kv then kv.1 :: Compare.diffOf ymap rest
      else Compare.diffOf ymap rest := by
  by_cases h : Compare.entryDiffers ymap kv = true <;> simp [Compare.diffOf, List.filter_cons, h]

/-- The first loop panics when some entry meets a value of the same
uncomparable type, and otherwise appends the deleted and the changed keys. -/
theorem Compare.delDiffLoop_eq (ymap : GoMap) (l : List (String × Value))
    (delKeys diffValueKeys : List String) :
    Compare.delDiffLoop ymap l delKeys diffValueKeys =
      if l.any (Compare.entryPanics ymap) then Outcome.panic
      else Outcome.ret (delKeys ++ Compare.delOf ymap l, diffValueKeys ++ Compare.diffOf ymap l) := by
  induction l generalizing delKeys diffValueKeys with
  | nil => simp [Compare.delDiffLoop, Compare.delOf, Compare.diffOf]
  | cons kv rest ih =>
    obtain ⟨key, value⟩ := kv
    unfold Compare.delDiffLoop
    rw [Compare.delOf_cons, Compare.diffOf_cons, List.any_cons]
    cases h : ymap.get? key with
    | none =>
      have hp : Compare.entryPanics ymap (key, value) = false := by
        simp [Compare.entryPanics, h]
      have hd : Compare.entryDiffers ymap (key, value) = false := by
        simp [Compare.entryDiffers, h]
      have ha : Compare.absent ymap key = true := by
        simp [Compare.absent, h]
      simp only [ih, hp, hd, ha, Bool.false_or, if_true, List.append_assoc,
        List.singleton_append]
      rfl
    | some val =>
      have ha : Compare.absent ymap key = false := by
        simp [Compare.absent, h]
      dsimp only
      cases hne : ifaceNe val value with
      | panic =>
        have hp : Compare.entryPanics ymap (key, value) = true := by
          simp [Compare.entryPanics, h, hne]
        simp [hp]
      | ret b =>
        have hp : Compare.entryPanics ymap (key, value) = false := by
          simp [Compare.entryPanics, h, hne]
        cases b with
        | true =>
          have hd : Compare.entryDiffers ymap (key, value) = true := by
            simp [Compare.entryDiffers, h, hne]
          rw [hp, hd, ha]
          simp only [ih, List.append_assoc, List.singleton_append]
          rfl
        | false =>
          have hd : Compare.entryDiffers ymap (key, value) = false := by
            simp [Compare.entryDiffers, h, hne]
          rw [hp, hd, ha]
          simp only [ih, List.append_assoc, List.singleton_append]
          rfl

/-- A value found under a key belongs to an entry of the map. -/
theorem lookup_mem (l : List (String × Value)) (key : String) (v : Value)
    (h : l.lookup key = some v) : (key, v) ∈ l := by
  induction l with
  | nil => simp at h
  | cons kv rest ih =>
    obtain ⟨k, w⟩ := kv
    by_cases hk : key = k
    · subst hk
      simp [List.lookup] at h
      simp [h]
    · have hb : (key == k) = false := by simpa using hk
      simp [List.lookup, hb] at h
      exact List.mem_cons_of_mem _ (ih h)

/-- An entry of a list with distinct keys is what its key looks up. -/
theorem mem_lookup (l : List (String × Value)) (hn : (l.map Prod.fst).Nodup)
    (key : String) (v : Value) (h : (key, v) ∈ l) : l.lookup key = some v := by
  induction l with
  | nil => simp at h
  | cons kv rest ih =>
    obtain ⟨k, w⟩ := kv
    have hn2 : k ∉ rest.map Prod.fst ∧ (rest.map Prod.fst).Nodup := by
      simpa using hn
    rcases List.mem_cons.1 h with heq | hmem
    · have hk : key = k := congrArg Prod.fst heq
      have hv : v = w := congrArg Prod.snd heq
      subst hk
      subst hv
      simp [List.lookup]
    · have hk : key ≠ k := by
        intro hk
        apply hn2.1
        rw [← hk]
        exact List.mem_map.2 ⟨(key, v), hmem, rfl⟩
      have hb : (key == k) = false := by simpa using hk
      simp [List.lookup, hb]
      exact ih hn2.2 hmem

theorem GoMap.get?_of_mem (m : GoMap) (key : String) (v : Value) (h : (key, v) ∈ m.entries) :
    m.get? key = some v :=
  mem_lookup m.entries m.nodup key v h

theorem GoMap.mem_of_get? (m : GoMap) (key : String) (v : Value) (h : m.get? key = some v) :
    (key, v) ∈ m.entries :=
  lookup_mem m.entries key v h

/-- The comparison of two decoded maps panics as soon as one shared key holds
a sequence on both sides or a nested map on both sides. -/
theorem Compare.reconcile_panics (xmap ymap : GoMap) (key : String) (value val : Value)
    (hx : xmap.get? key = some value) (hy : ymap.get? key = some val)
    (hk : Value.sameNestedKind val value = true) :
    Compare.reconcile xmap ymap = Outcome.panic := by
  have hany : xmap.entries.any (Compare.entryPanics ymap) = true := by
    rw [List.any_eq_true]
    refine ⟨(key, value), GoMap.mem_of_get? xmap key value hx, ?_⟩
    simp [Compare.entryPanics, hy, (ifaceNe_panic_iff val value).2 hk]
  unfold Compare.reconcile
  rw [Compare.delDiffLoop_eq, if_pos hany]

/-- Whatever the comparison of two decoded maps returns satisfies the
invariant of diff results. -/
theorem Compare.reconcile_invariant (xmap ymap : GoMap) (r : DiffResult)
    (h : Compare.reconcile xmap ymap = Outcome.ret r) : r.Invariant := by
  unfold Compare.reconcile at h
  cases hl : Compare.delDiffLoop ymap xmap.entries [] [] with
  | panic => simp [hl] at h
  | ret p =>
    obtain ⟨delKeys, diffValueKeys⟩ := p
    simp only [hl] at h
    split at h
    · injection h with h
      subst h
      simp [DiffResult.Invariant, sliceLen]
    · rename_i hc
      injection h with h
      subst h
      simp only [DiffResult.Invariant, sliceLen]
      constructor
      · intro hf
        cases hf
      · rintro ⟨-, h1, h2, h3⟩
        exact absurd (by simp [h1, h2, h3]) hc

/-- A failed call satisfies the invariant: `equal` is false and the error is set. -/
theorem Compare.fail_invariant (err : GoError) : (Compare.fail err).Invariant := by
  simp [DiffResult.Invariant, Compare.fail]

/-- A pair of nil-free inputs that both decode is compared by `reconcile`
(JSON variant: decoding succeeds on valid input only). -/
theorem JsonCompares.Compare_json_decoded (J : JsonLib) (x y : List Byte) (mx my : GoMap)
    (hx : J.Unmarshal x = Except.ok mx) (hy : J.Unmarshal y = Except.ok my) :
    JsonCompares.Compare J (some x) (some y) = Compare.reconcile mx my := by
  have vx := J.unmarshal_valid x mx hx
  have vy := J.unmarshal_valid y my hy
  simp [JsonCompares.Compare, vx, vy, hx, hy]

/-- A pair of nil-free inputs that both decode is compared by `reconcile`
(YAML variant). -/
theorem YamlCompares.Compare_yaml_decoded (Y : YamlLib) (x y : List Byte) (mx my : GoMap)
    (hx : Y.Unmarshal x = Except.ok mx) (hy : Y.Unmarshal y = Except.ok my) :
    YamlCompares.Compare Y (some x) (some y) = Compare.reconcile mx my := by
  simp [YamlCompares.Compare, hx, hy]

/-- The JSON variant returns a result that satisfies the invariant, or it
panics while comparing two decoded maps. -/
theorem JsonCompares.Compare_json_cases (J : JsonLib) (x y : Buffer) :
    (∃ err, JsonCompares.Compare J x y = Outcome.ret (Compare.fail err)) ∨
    (∃ xb yb mx my, x = some xb ∧ y = some yb ∧ J.Unmarshal xb = Except.ok mx ∧
      J.Unmarshal yb = Except.ok my ∧
      JsonCompares.Compare J x y = Compare.reconcile mx my) := by
  cases x with
  | none => exact Or.inl ⟨_, rfl⟩
  | some xb =>
    cases y with
    | none => exact Or.inl ⟨_, rfl⟩
    | some yb =>
      cases hvx : J.Valid xb with
      | false =>
        exact Or.inl ⟨GoError.errorsNew "x is invalid json", by simp [JsonCompares.Compare, hvx]⟩
      | true =>
        cases hvy : J.Valid yb with
        | false =>
          exact Or.inl ⟨GoError.errorsNew "x is invalid json",
            by simp [JsonCompares.Compare, hvx, hvy]⟩
        | true =>
          cases hx : J.Unmarshal xb with
          | error e => exact Or.inl ⟨e, by simp [JsonCompares.Compare, hvx, hvy, hx]⟩
          | ok mx =>
            cases hy : J.Unmarshal yb with
            | error e => exact Or.inl ⟨e, by simp [JsonCompares.Compare, hvx, hvy, hx, hy]⟩
            | ok my =>
              exact Or.inr ⟨xb, yb, mx, my, rfl, rfl, hx, hy,
                JsonCompares.Compare_json_decoded J xb yb mx my hx hy⟩

/-- The YAML variant returns a failure, or it compares two decoded maps. -/
theorem YamlCompares.Compare_yaml_cases (Y : YamlLib) (x y : Buffer) :
    (∃ err, YamlCompares.Compare Y x y = Outcome.ret (Compare.fail err)) ∨
    (∃ xb yb mx my, x = some xb ∧ y = some yb ∧ Y.Unmarshal xb = Except.ok mx ∧
      Y.Unmarshal yb = Except.ok my ∧
      YamlCompares.Compare Y x y = Compare.reconcile mx my) := by
  cases x with
  | none => exact Or.inl ⟨_, rfl⟩
  | some xb =>
    cases y with
    | none => exact Or.inl ⟨_, rfl⟩
    | some yb =>
      cases hx : Y.Unmarshal xb with
      | error e => exact Or.inl ⟨e, by simp [YamlCompares.Compare, hx]⟩
      | ok mx =>
        cases hy : Y.Unmarshal yb with
        | error e => exact Or.inl ⟨e, by simp [YamlCompares.Compare, hx, hy]⟩
        | ok my =>
          exact Or.inr ⟨xb, yb, mx, my, rfl, rfl, hx, hy,
            YamlCompares.Compare_yaml_decoded Y xb yb mx my hx hy⟩

/-- Both variants panic on every pair of documents whose decoded maps share a
key that holds a sequence on both sides or a nested map on both sides,
whatever the contents. -/
theorem Compare_panics_of_shared_nested (J : JsonLib) (Y : YamlLib) (x y : List Byte)
    (mx my : GoMap) (key : String) (vx vy : Value)
    (hx : mx.get? key = some vx) (hy : my.get? key = some vy)
    (hk : Value.sameNestedKind vy vx = true) :
    (J.Unmarshal x = Except.ok mx → J.Unmarshal y = Except.ok my →
      JsonCompares.Compare J (some x) (some y) = Outcome.panic) ∧
    (Y.Unmarshal x = Except.ok mx → Y.Unmarshal y = Except.ok my →
      YamlCompares.Compare Y (some x) (some y) = Outcome.panic) := by
  have hp := Compare.reconcile_panics mx my key vx vy hx hy hk
  constructor
  · intro h1 h2
    rw [JsonCompares.Compare_json_decoded J x y mx my h1 h2, hp]
  · intro h1 h2
    rw [YamlCompares.Compare_yaml_decoded Y x y mx my h1 h2, hp]

/-- The JSON variant reports every malformed input as "x is invalid json",
on whichever side it is. -/
theorem JsonCompares.Compare_invalid (J : JsonLib) (x y : List Byte) :
    (J.Valid x = false → JsonCompares.Compare J (some x) (some y) =
      Outcome.ret (Compare.fail (GoError.errorsNew "x is invalid json"))) ∧
    (J.Valid x = true → J.Valid y = false → JsonCompares.Compare J (some x) (some y) =
      Outcome.ret (Compare.fail (GoError.errorsNew "x is invalid json"))) := by
  constructor
  · intro hx
    simp [JsonCompares.Compare, hx]
  · intro hx hy
    simp [JsonCompares.Compare, hx, hy]

/-- The two examples of the specification, on the JSON variant. -/
theorem JsonCompares.Compare_examples :
    JsonCompares.Compare sampleJson (some jsonAB) (some jsonBC) =
      Outcome.ret ⟨false, some ["c"], some ["a"], some [], none⟩ ∧
    JsonCompares.Compare sampleJson (some jsonA1) (some jsonA2) =
      Outcome.ret ⟨false, some [], some [], some ["a"], none⟩ := by
  decide

/-! ## Properties of Compare -/

/-- C1, on the code: the key classification is not delivered for every pair of
decoded maps. The documents `{"a":[1]}` and `{"a":[2]}` (JSON) and `a: [1]` and
`a: [2]` (YAML) decode to maps that are not identical, and `Compare` panics on
them in the comparison `val != value` instead of returning `equal = false`
with the key `a` as changed. -/
theorem Compare_differing_sequences_panic :
    JsonCompares.Compare sampleJson (some jsonSeq1) (some jsonSeq2) = Outcome.panic ∧
    YamlCompares.Compare sampleYaml (some yamlSeq1) (some yamlSeq2) = Outcome.panic := by
  decide

/-- C2: for every pair of inputs, every result that `Compare` returns has
`equal = true` exactly when the error is nil and the new, deleted and changed
keys are all empty; and a call that does not return is one in which both
inputs were non-nil and decoded (nil, malformed and undecodable inputs always
return). Both variants. -/
theorem Compare_equal_iff_no_error_no_keys (J : JsonLib) (Y : YamlLib) (x y : Buffer) :
    ((∀ r, JsonCompares.Compare J x y = Outcome.ret r → r.Invariant) ∧
      (JsonCompares.Compare J x y = Outcome.panic →
        ∃ xb yb mx my, x = some xb ∧ y = some yb ∧
          J.Unmarshal xb = Except.ok mx ∧ J.Unmarshal yb = Except.ok my)) ∧
    ((∀ r, YamlCompares.Compare Y x y = Outcome.ret r → r.Invariant) ∧
      (YamlCompares.Compare Y x y = Outcome.panic →
        ∃ xb yb mx my, x = some xb ∧ y = some yb ∧
          Y.Unmarshal xb = Except.ok mx ∧ Y.Unmarshal yb = Except.ok my)) := by
  constructor
  · rcases JsonCompares.Compare_json_cases J x y with ⟨err, he⟩ | ⟨xb, yb, mx, my, hx, hy, ux, uy, hc⟩
    · constructor
      · intro r hr
        rw [he] at hr
        injection hr with hr
        subst hr
        exact Compare.fail_invariant err
      · intro hp
        rw [he] at hp
        cases hp
    · constructor
      · intro r hr
        rw [hc] at hr
        exact Compare.reconcile_invariant mx my r hr
      · intro _
        exact ⟨xb, yb, mx, my, hx, hy, ux, uy⟩
  · rcases YamlCompares.Compare_yaml_cases Y x y with ⟨err, he⟩ | ⟨xb, yb, mx, my, hx, hy, ux, uy, hc⟩
    · constructor
      · intro r hr
        rw [he] at hr
        injection hr with hr
        subst hr
        exact Compare.fail_invariant err
      · intro hp
        rw [he] at hp
        cases hp
    · constructor
      · intro r hr
        rw [hc] at hr
        exact Compare.reconcile_invariant mx my r hr
      · intro _
        exact ⟨xb, yb, mx, my, hx, hy, ux, uy⟩

/-- C2, at concrete inputs: the result for a nil `x` and the result for the
documents `{"a":1,"b":2}` and `{"b":2,"c":3}` satisfy the invariant. -/
theorem Compare_equal_iff_no_error_no_keys_witness :
    (Compare.fail (GoError.errorsNew "x is nil item")).Invariant ∧
    DiffResult.Invariant ⟨false, some ["c"], some ["a"], some [], none⟩ :=
  ⟨(Compare_equal_iff_no_error_no_keys sampleJson sampleYaml none none).1.1 _ (by decide),
   (Compare_equal_iff_no_error_no_keys sampleJson sampleYaml (some jsonAB) (some jsonBC)).1.1 _
     (by decide)⟩

/-- C4, on the code: with `x` the well-formed document `{}` and `y` the
malformed document `{`, the JSON `Compare` fails with the error
"x is invalid json": the error names `x`, not the offending side `y`. -/
theorem JsonCompare_malformed_y_named_x :
    sampleJson.Valid jsonEmpty = true ∧ sampleJson.Valid jsonBroken = false ∧
    JsonCompares.Compare sampleJson (some jsonEmpty) (some jsonBroken) =
      Outcome.ret ⟨false, none, none, none, some (GoError.errorsNew "x is invalid json")⟩ := by
  decide

/-- C5, on the code: the documents `{"a":{"b":1}}` and `{"a":{"b":2}}` (JSON)
and `a: {b: 1}` and `a: {b: 2}` (YAML) share the key `a` with a nested map of
different contents on both sides, and `Compare` panics on them instead of
returning the key `a` as changed. -/
theorem Compare_differing_nested_maps_panic :
    JsonCompares.Compare sampleJson (some jsonObj1) (some jsonObj2) = Outcome.panic ∧
    YamlCompares.Compare sampleYaml (some yamlMap1) (some yamlMap2) = Outcome.panic := by
  decide

/-! ## Properties of AreEqual -/

/-- The two variants of `AreEqual` are the same function. -/
theorem YamlCompares.AreEqual_eq (items : List Buffer) :
    YamlCompares.AreEqual items = JsonCompares.AreEqual items := by
  cases items with
  | nil => rfl
  | cons a t => cases t <;> rfl

/-- With two or more items `AreEqual` is its loop started at index 1. -/
theorem JsonCompares.AreEqual_cons_cons (a b : Buffer) (rest : List Buffer) :
    JsonCompares.AreEqual (a :: b :: rest) = AreEqual.loop a (b :: rest) 1 false := rfl

/-- The result of `AreEqual` at the first adjacent pair that differs. -/
theorem JsonCompares.AreEqual_at_first_diff (items : List Buffer) (i : Nat) (h1 : 1 ≤ i)
    (hi : i < items.length) (hdiff : items[i - 1]? ≠ items[i]?)
    (hfirst : ∀ j, 1 ≤ j → j < i → items[j - 1]? = items[j]?) :
    JsonCompares.AreEqual items = (decide (2 ≤ i), i, none) := by
  obtain ⟨k, rfl⟩ : ∃ k, i = k + 1 := ⟨i - 1, by omega⟩
  cases items with
  | nil => simp at hi
  | cons a t =>
    cases t with
    | nil => simp at hi
    | cons b rest =>
      rw [JsonCompares.AreEqual_cons_cons]
      have hk : k < (b :: rest).length := by simpa using hi
      have hs : ∀ j, j < k → (a :: b :: rest)[j]? = (a :: b :: rest)[j + 1]? := by
        intro j hj
        have := hfirst (j + 1) (by omega) (by omega)
        simpa using this
      have hd : (a :: b :: rest)[k]? ≠ (a :: b :: rest)[k + 1]? := by
        simpa using hdiff
      rw [AreEqual.loop_first_diff (b :: rest) a 1 false k hk hs hd]
      have e1 : decide (0 < k) = decide (2 ≤ k + 1) := by
        apply decide_eq_decide.2
        omega
      simp [e1, Nat.add_comm]

/-- C6: for every sequence in which some adjacent pair differs, with `i` the
smallest index such that `items[i-1]` differs from `items[i]`, `AreEqual`
returns `(equalSoFar, i, nil)` where `equalSoFar` is true exactly when
`i >= 2`; and every sequence with the same items up to index `i` gives the
same result. Both variants. -/
theorem AreEqual_first_divergence (items : List Buffer) (i : Nat) (h1 : 1 ≤ i)
    (hi : i < items.length) (hdiff : items[i - 1]? ≠ items[i]?)
    (hfirst : ∀ j, 1 ≤ j → j < i → items[j - 1]? = items[j]?) :
    JsonCompares.AreEqual items = (decide (2 ≤ i), i, none) ∧
    YamlCompares.AreEqual items = (decide (2 ≤ i), i, none) ∧
    ∀ others : List Buffer, others.take (i + 1) = items.take (i + 1) →
      JsonCompares.AreEqual others = JsonCompares.AreEqual items ∧
      YamlCompares.AreEqual others = YamlCompares.AreEqual items := by
  have hmain := JsonCompares.AreEqual_at_first_diff items i h1 hi hdiff hfirst
  refine ⟨hmain, by rw [YamlCompares.AreEqual_eq, hmain], ?_⟩
  intro others ht
  have hget : ∀ j, j < i + 1 → others[j]? = items[j]? := by
    intro j hj
    rw [← List.getElem?_take_of_lt hj, ht, List.getElem?_take_of_lt hj]
  have hlen : i < others.length := by
    have := congrArg List.length ht
    simp only [List.length_take] at this
    omega
  have hd2 : others[i - 1]? ≠ others[i]? := by
    rw [hget (i - 1) (by omega), hget i (by omega)]
    exact hdiff
  have hf2 : ∀ j, 1 ≤ j → j < i → others[j - 1]? = others[j]? := by
    intro j hj1 hj2
    rw [hget (j - 1) (by omega), hget j (by omega)]
    exact hfirst j hj1 hj2
  have hother := JsonCompares.AreEqual_at_first_diff others i h1 hlen hd2 hf2
  constructor
  · rw [hother, hmain]
  · rw [YamlCompares.AreEqual_eq, YamlCompares.AreEqual_eq, hother, hmain]

/-- C6, at a concrete input: `AreEqual(a, b, c)` with `a == b` and `b != c`
returns `(true, 2, nil)`, also when further items follow. -/
theorem AreEqual_first_divergence_witness :
    JsonCompares.AreEqual [some [1], some [1], some [2]] = (true, 2, none) ∧
    YamlCompares.AreEqual [some [1], some [1], some [2]] = (true, 2, none) ∧
    ∀ others : List Buffer, others.take 3 = [some [1], some [1], some [2]] →
      JsonCompares.AreEqual others = JsonCompares.AreEqual [some [1], some [1], some [2]] ∧
      YamlCompares.AreEqual others = YamlCompares.AreEqual [some [1], some [1], some [2]] :=
  AreEqual_first_divergence [some [1], some [1], some [2]] 2 (by decide) (by decide)
    (by decide) (by
      intro j hj1 hj2
      have hj : j = 1 := by omega
      subst hj
      decide)

/-- C7, on the code: for the items `a, a, b` with `a` and `b` different the
doc comment promises `false, index, nil`, and `AreEqual` returns
`(true, 2, nil)`: the bool is true although two items differ. -/
theorem AreEqual_returns_true_on_divergence :
    JsonCompares.AreEqual [some [7], some [7], some [8]] = (true, 2, none) ∧
    YamlCompares.AreEqual [some [7], some [7], some [8]] = (true, 2, none) := by
  decide

/-- Every adjacent pair of a list is equal exactly when all its items are
equal to one another. -/
theorem adjacent_eq_iff_all_eq (items : List Buffer) :
    (∀ j, 1 ≤ j → j < items.length → items[j - 1]? = items[j]?) ↔
      ∀ a ∈ items, ∀ b ∈ items, a = b := by
  constructor
  · intro h
    have hfirst : ∀ j, j < items.length → items[j]? = items[0]? := by
      intro j
      induction j with
      | zero => intro _; rfl
      | succ j ih =>
        intro hj
        have hstep := h (j + 1) (by omega) hj
        have e : j + 1 - 1 = j := by omega
        rw [e] at hstep
        rw [← hstep]
        exact ih (by omega)
    intro a ha b hb
    obtain ⟨n, hn⟩ := List.mem_iff_getElem?.1 ha
    obtain ⟨k, hk⟩ := List.mem_iff_getElem?.1 hb
    have hn2 : n < items.length := by
      obtain ⟨hlt, -⟩ := List.getElem?_eq_some.1 hn
      exact hlt
    have hk2 : k < items.length := by
      obtain ⟨hlt, -⟩ := List.getElem?_eq_some.1 hk
      exact hlt
    have e1 := hfirst n hn2
    have e2 := hfirst k hk2
    rw [hn] at e1
    rw [hk, ← e1] at e2
    exact (Option.some.inj e2).symm
  · intro h j hj1 hj2
    have hlt : j - 1 < items.length := by omega
    rw [List.getElem?_eq_getElem hlt, List.getElem?_eq_getElem hj2]
    exact congrArg some (h _ (List.getElem_mem hlt) _ (List.getElem_mem hj2))

/-- With two or more items the JSON `AreEqual` returns `(true, 0, nil)`
exactly when every adjacent pair is equal. -/
theorem JsonCompares.AreEqual_all_same_iff (items : List Buffer) (h2 : 2 ≤ items.length) :
    JsonCompares.AreEqual items = (true, 0, none) ↔
      ∀ j, 1 ≤ j → j < items.length → items[j - 1]? = items[j]? := by
  cases items with
  | nil => simp at h2
  | cons a t =>
    cases t with
    | nil => simp at h2
    | cons b rest =>
      rw [JsonCompares.AreEqual_cons_cons]
      constructor
      · intro h j hj1 hj2
        have h0 : (AreEqual.loop a (b :: rest) 1 false).2.1 = 0 := by rw [h]
        have := AreEqual.loop_zero_index (b :: rest) a 1 false (by decide) h0 (j - 1)
          (by simp at hj2 ⊢; omega)
        have e : j - 1 + 1 = j := by omega
        rw [e] at this
        exact this
      · intro h
        rw [AreEqual.loop_all_same (b :: rest) a 1 false]
        · simp
        · intro j hj
          have := h (j + 1) (by omega) (by simp at hj ⊢; omega)
          simpa using this

/-- C8: for every sequence of two or more buffers, `AreEqual` returns exactly
`(true, 0, nil)` if and only if every adjacent pair of items is equal, which
is to say that all items are equal to one another. Both variants. -/
theorem AreEqual_true_zero_iff (items : List Buffer) (h2 : 2 ≤ items.length) :
    (JsonCompares.AreEqual items = (true, 0, none) ↔
      ∀ j, 1 ≤ j → j < items.length → items[j - 1]? = items[j]?) ∧
    (YamlCompares.AreEqual items = (true, 0, none) ↔
      ∀ j, 1 ≤ j → j < items.length → items[j - 1]? = items[j]?) ∧
    ((∀ j, 1 ≤ j → j < items.length → items[j - 1]? = items[j]?) ↔
      ∀ a ∈ items, ∀ b ∈ items, a = b) := by
  have hjson := JsonCompares.AreEqual_all_same_iff items h2
  exact ⟨hjson, by rw [YamlCompares.AreEqual_eq]; exact hjson, adjacent_eq_iff_all_eq items⟩

/-- C8, at a concrete input: three equal items give `(true, 0, nil)`. -/
theorem AreEqual_true_zero_iff_witness :
    JsonCompares.AreEqual [some [5], some [5], some [5]] = (true, 0, none) :=
  ((AreEqual_true_zero_iff [some [5], some [5], some [5]] (by decide)).1).2 (by
    intro j hj1 hj2
    have hj : j = 1 ∨ j = 2 := by
      simp at hj2
      omega
    rcases hj with rfl | rfl <;> decide)

/-- C9, refuted as stated: a sequence of one buffer is a non-empty sequence
of identical buffers, and `AreEqual` returns `(false, 0, ErrOnlyOneItem)` for
it, not `(true, 0, nil)`. -/
theorem AreEqual_single_item_not_equal :
    JsonCompares.AreEqual (List.replicate 1 (some [9])) =
      (false, 0, some GoError.ErrOnlyOneItem) ∧
    JsonCompares.AreEqual (List.replicate 1 (some [9])) ≠ (true, 0, none) := by
  decide

/-- C9, amended: for every non-empty sequence of `n` copies of one buffer,
`AreEqual` returns `(true, 0, nil)` when `n >= 2` and
`(false, 0, ErrOnlyOneItem)` when `n = 1`. Both variants. -/
theorem AreEqual_replicate (b : Buffer) (n : Nat) (hn : 1 ≤ n) :
    JsonCompares.AreEqual (List.replicate n b) =
      (if n = 1 then (false, 0, some GoError.ErrOnlyOneItem) else (true, 0, none)) ∧
    YamlCompares.AreEqual (List.replicate n b) =
      (if n = 1 then (false, 0, some GoError.ErrOnlyOneItem) else (true, 0, none)) := by
  have hjson : JsonCompares.AreEqual (List.replicate n b) =
      (if n = 1 then (false, 0, some GoError.ErrOnlyOneItem) else (true, 0, none)) := by
    by_cases h1 : n = 1
    · subst h1
      rfl
    · have hlen : 2 ≤ (List.replicate n b).length := by
        simp
        omega
      have hall : ∀ j, 1 ≤ j → j < (List.replicate n b).length →
          (List.replicate n b)[j - 1]? = (List.replicate n b)[j]? := by
        intro j hj1 hj2
        have hj : j < n := by simpa using hj2
        rw [List.getElem?_replicate_of_lt hj, List.getElem?_replicate_of_lt (by omega)]
      rw [if_neg h1]
      exact (JsonCompares.AreEqual_all_same_iff _ hlen).2 hall
  exact ⟨hjson, by rw [YamlCompares.AreEqual_eq]; exact hjson⟩

/-- C9, amended, at a concrete input: three copies of one buffer. -/
theorem AreEqual_replicate_witness :
    JsonCompares.AreEqual (List.replicate 3 (some [9])) = (true, 0, none) ∧
    YamlCompares.AreEqual (List.replicate 3 (some [9])) = (true, 0, none) :=
  AreEqual_replicate (some [9]) 3 (by decide)

/-- C10: `AreEqual` returns a non-nil error if and only if it is given fewer
than two items; with no item the result is `(false, 0, ErrNoItem)` and with
one item, whatever it is, `(false, 0, ErrOnlyOneItem)`. Both variants. -/
theorem AreEqual_arity_errors (items : List Buffer) :
    ((JsonCompares.AreEqual items).2.2 ≠ none ↔ items.length < 2) ∧
    JsonCompares.AreEqual [] = (false, 0, some GoError.ErrNoItem) ∧
    (∀ b : Buffer, JsonCompares.AreEqual [b] = (false, 0, some GoError.ErrOnlyOneItem)) ∧
    ((YamlCompares.AreEqual items).2.2 ≠ none ↔ items.length < 2) ∧
    YamlCompares.AreEqual [] = (false, 0, some GoError.ErrNoItem) ∧
    (∀ b : Buffer, YamlCompares.AreEqual [b] = (false, 0, some GoError.ErrOnlyOneItem)) := by
  have hjson : (JsonCompares.AreEqual items).2.2 ≠ none ↔ items.length < 2 := by
    cases items with
    | nil => simp [JsonCompares.AreEqual]
    | cons a t =>
      cases t with
      | nil => simp [JsonCompares.AreEqual]
      | cons b rest =>
        rw [JsonCompares.AreEqual_cons_cons, AreEqual.loop_err]
        simp
  refine ⟨hjson, rfl, fun _ => rfl, ?_, rfl, fun _ => rfl⟩
  rw [YamlCompares.AreEqual_eq]
  exact hjson

/-! ## Properties of IsEqual -/

/-- The two variants of `IsEqual` are the same function. -/
theorem YamlCompares.IsEqual_eq (x y : Buffer) :
    YamlCompares.IsEqual x y = JsonCompares.IsEqual x y := rfl

/-- On two non-nil buffers `IsEqual` returns whether they are the same list
of bytes, and no error. -/
theorem JsonCompares.IsEqual_some (x y : List Byte) :
    JsonCompares.IsEqual (some x) (some y) = (decide (x = y), none) := by
  by_cases h : x = y <;> simp [JsonCompares.IsEqual, DeepEqual, h]

/-- Two lists of bytes are the same list exactly when they have the same
length and the same byte at every position. -/
theorem bytes_eq_iff (x y : List Byte) :
    x = y ↔ x.length = y.length ∧
      ∀ i (hx : i < x.length) (hy : i < y.length), x[i] = y[i] := by
  constructor
  · rintro rfl
    exact ⟨rfl, fun _ _ _ => rfl⟩
  · rintro ⟨hl, hi⟩
    exact List.ext_getElem hl hi

/-- C11: for all non-nil buffers `x` and `y`, empty ones included,
`IsEqual(x, y)` returns `(b, nil)` where `b` is true if and only if `x` and `y`
have the same length and the same byte at every position; in particular two
different byte sequences are unequal whatever they decode to. Both variants. -/
theorem IsEqual_byte_identity (x y : List Byte) :
    (∃ b, JsonCompares.IsEqual (some x) (some y) = (b, none) ∧
      (b = true ↔ x.length = y.length ∧
        ∀ i (hx : i < x.length) (hy : i < y.length), x[i] = y[i])) ∧
    (∃ b, YamlCompares.IsEqual (some x) (some y) = (b, none) ∧
      (b = true ↔ x.length = y.length ∧
        ∀ i (hx : i < x.length) (hy : i < y.length), x[i] = y[i])) ∧
    (x ≠ y → JsonCompares.IsEqual (some x) (some y) = (false, none) ∧
      YamlCompares.IsEqual (some x) (some y) = (false, none)) := by
  have hb : (decide (x = y) = true ↔ x.length = y.length ∧
      ∀ i (hx : i < x.length) (hy : i < y.length), x[i] = y[i]) := by
    rw [decide_eq_true_iff]
    exact bytes_eq_iff x y
  refine ⟨⟨decide (x = y), JsonCompares.IsEqual_some x y, hb⟩,
    ⟨decide (x = y), ?_, hb⟩, ?_⟩
  · rw [YamlCompares.IsEqual_eq]
    exact JsonCompares.IsEqual_some x y
  · intro hne
    rw [YamlCompares.IsEqual_eq, JsonCompares.IsEqual_some]
    simp [hne]

/-- C11, at concrete inputs: the JSON texts `{"a":1}` and `{"a": 1}` encode
the same document and are reported unequal. -/
theorem IsEqual_byte_identity_witness :
    JsonCompares.IsEqual (some jsonA1) (some [123, 34, 97, 34, 58, 32, 49, 125]) =
      (false, none) ∧
    YamlCompares.IsEqual (some jsonA1) (some [123, 34, 97, 34, 58, 32, 49, 125]) =
      (false, none) :=
  (IsEqual_byte_identity jsonA1 [123, 34, 97, 34, 58, 32, 49, 125]).2.2 (by decide)

/-- C12: `IsEqual` returns a non-nil error if and only if `x` is nil or `y` is
nil; `IsEqual(nil, y)` returns `false` and "x is nil item" for every `y`, and
`IsEqual(x, nil)` with `x` non-nil returns `false` and "y is nil item". Both
variants. -/
theorem IsEqual_nil_inputs (x y : Buffer) :
    ((JsonCompares.IsEqual x y).2 ≠ none ↔ x = none ∨ y = none) ∧
    JsonCompares.IsEqual none y = (false, some (GoError.errorsNew "x is nil item")) ∧
    (∀ xb : List Byte, JsonCompares.IsEqual (some xb) none =
      (false, some (GoError.errorsNew "y is nil item"))) ∧
    ((YamlCompares.IsEqual x y).2 ≠ none ↔ x = none ∨ y = none) ∧
    YamlCompares.IsEqual none y = (false, some (GoError.errorsNew "x is nil item")) ∧
    (∀ xb : List Byte, YamlCompares.IsEqual (some xb) none =
      (false, some (GoError.errorsNew "y is nil item"))) := by
  have hjson : (JsonCompares.IsEqual x y).2 ≠ none ↔ x = none ∨ y = none := by
    cases x with
    | none => simp [JsonCompares.IsEqual]
    | some xb =>
      cases y with
      | none => simp [JsonCompares.IsEqual]
      | some yb =>
        rw [JsonCompares.IsEqual_some]
        simp
  exact ⟨hjson, rfl, fun _ => rfl, hjson, rfl, fun _ => rfl⟩

/-! ## More properties of AreEqual -/

/-- C19: for every sequence of two or more items `AreEqual` returns a nil
error, also when items are nil; a nil buffer is equal only to another nil
buffer: `AreEqual(nil, nil)` returns `(true, 0, nil)`, while `AreEqual(nil, b)`
and `AreEqual(b, nil)` return `(false, 1, nil)` for every non-nil buffer `b`,
the empty one included; and for two non-nil buffers the bool of `AreEqual` is
the bool of `IsEqual`. Both variants. -/
theorem AreEqual_nil_buffers :
    (∀ items : List Buffer, 2 ≤ items.length →
      (JsonCompares.AreEqual items).2.2 = none ∧ (YamlCompares.AreEqual items).2.2 = none) ∧
    JsonCompares.AreEqual [none, none] = (true, 0, none) ∧
    YamlCompares.AreEqual [none, none] = (true, 0, none) ∧
    JsonCompares.AreEqual [none, some []] = (false, 1, none) ∧
    YamlCompares.AreEqual [none, some []] = (false, 1, none) ∧
    JsonCompares.AreEqual [some [], none] = (false, 1, none) ∧
    YamlCompares.AreEqual [some [], none] = (false, 1, none) ∧
    (∀ b : List Byte,
      JsonCompares.AreEqual [none, some b] = (false, 1, none) ∧
      YamlCompares.AreEqual [none, some b] = (false, 1, none) ∧
      JsonCompares.AreEqual [some b, none] = (false, 1, none) ∧
      YamlCompares.AreEqual [some b, none] = (false, 1, none)) ∧
    (∀ b : Buffer,
      ((JsonCompares.AreEqual [none, b]).1 = true ↔ b = none) ∧
      ((YamlCompares.AreEqual [none, b]).1 = true ↔ b = none) ∧
      ((JsonCompares.AreEqual [b, none]).1 = true ↔ b = none) ∧
      ((YamlCompares.AreEqual [b, none]).1 = true ↔ b = none)) ∧
    (∀ x y : List Byte,
      (JsonCompares.AreEqual [some x, some y]).1 = (JsonCompares.IsEqual (some x) (some y)).1 ∧
      (YamlCompares.AreEqual [some x, some y]).1 =
        (YamlCompares.IsEqual (some x) (some y)).1) := by
  have hnil : ∀ b : List Byte,
      JsonCompares.AreEqual [none, some b] = (false, 1, none) ∧
      JsonCompares.AreEqual [some b, none] = (false, 1, none) := by
    intro b
    constructor <;> simp [JsonCompares.AreEqual, AreEqual.loop, DeepEqual]
  refine ⟨?_, by decide, by decide, by decide, by decide, by decide, by decide, ?_, ?_, ?_⟩
  · intro items h2
    have hjson : (JsonCompares.AreEqual items).2.2 = none := by
      cases items with
      | nil => simp at h2
      | cons a t =>
        cases t with
        | nil => simp at h2
        | cons b rest =>
          rw [JsonCompares.AreEqual_cons_cons]
          exact AreEqual.loop_err _ _ _ _
    exact ⟨hjson, by rw [YamlCompares.AreEqual_eq]; exact hjson⟩
  · intro b
    exact ⟨(hnil b).1, by rw [YamlCompares.AreEqual_eq]; exact (hnil b).1,
      (hnil b).2, by rw [YamlCompares.AreEqual_eq]; exact (hnil b).2⟩
  · intro b
    have h1 : (JsonCompares.AreEqual [none, b]).1 = true ↔ b = none := by
      cases b with
      | none => simp [JsonCompares.AreEqual, AreEqual.loop, DeepEqual]
      | some bs => simp [(hnil bs).1]
    have h2 : (JsonCompares.AreEqual [b, none]).1 = true ↔ b = none := by
      cases b with
      | none => simp [JsonCompares.AreEqual, AreEqual.loop, DeepEqual]
      | some bs => simp [(hnil bs).2]
    exact ⟨h1, by rw [YamlCompares.AreEqual_eq]; exact h1,
      h2, by rw [YamlCompares.AreEqual_eq]; exact h2⟩
  · intro x y
    have hjson : (JsonCompares.AreEqual [some x, some y]).1 =
        (JsonCompares.IsEqual (some x) (some y)).1 := by
      rw [JsonCompares.IsEqual_some, JsonCompares.AreEqual_cons_cons]
      by_cases h : x = y <;> simp [AreEqual.loop, DeepEqual, h]
    exact ⟨hjson, by rw [YamlCompares.AreEqual_eq, YamlCompares.IsEqual_eq]; exact hjson⟩

/-! ## The result of Compare as a classification of keys -/

theorem f64Eq_comm (a b : Nat) : f64Eq a b = f64Eq b a := by
  unfold f64Eq
  cases f64IsNaN a <;> cases f64IsNaN b <;> cases f64IsZero a <;> cases f64IsZero b <;>
    simp [eq_comm]

/-- Go's `==` on interface values does not depend on the order of its operands. -/
theorem ifaceEq_comm (val value : Value) : ifaceEq val value = ifaceEq value val := by
  cases val <;> cases value <;> simp [ifaceEq, f64Eq_comm, eq_comm]

theorem Value.sameNestedKind_comm (val value : Value) :
    Value.sameNestedKind val value = Value.sameNestedKind value val := by
  cases val <;> cases value <;> rfl

/-- A scalar is never of the same uncomparable kind as another value. -/
theorem Value.sameNestedKind_of_scalar (val value : Value) (hs : value.isScalar = true) :
    Value.sameNestedKind val value = false := by
  cases val <;> cases value <;> simp_all [Value.sameNestedKind, Value.isScalar]

/-- `!=` reports a difference exactly when `==` reports none. -/
theorem ifaceNe_true_iff (val value : Value) :
    ifaceNe val value = Outcome.ret true ↔ ifaceEq val value = Outcome.ret false := by
  unfold ifaceNe
  cases h : ifaceEq val value with
  | panic => simp
  | ret b => cases b <;> simp

/-- A key is among the keys of a map exactly when the map has a value for it. -/
theorem GoMap.mem_keys_iff (m : GoMap) (key : String) :
    key ∈ m.entries.map Prod.fst ↔ (m.get? key).isSome = true := by
  constructor
  · intro h
    obtain ⟨kv, hmem, rfl⟩ := List.mem_map.1 h
    rw [GoMap.get?_of_mem m kv.1 kv.2 hmem]
    rfl
  · intro h
    obtain ⟨v, hv⟩ := Option.isSome_iff_exists.1 h
    exact List.mem_map.2 ⟨(key, v), GoMap.mem_of_get? m key v hv, rfl⟩

/-- The keys the second loop appends: those of `ymap` absent from `xmap`. -/
theorem Compare.mem_newOf (xmap ymap : GoMap) (key : String) :
    key ∈ Compare.newOf xmap ymap.entries ↔
      xmap.get? key = none ∧ (ymap.get? key).isSome = true := by
  unfold Compare.newOf
  rw [List.mem_filter, GoMap.mem_keys_iff]
  simp [Compare.absent, and_comm]

/-- The deleted keys the first loop appends: those of `xmap` absent from `ymap`. -/
theorem Compare.mem_delOf (xmap ymap : GoMap) (key : String) :
    key ∈ Compare.delOf ymap xmap.entries ↔
      (xmap.get? key).isSome = true ∧ ymap.get? key = none := by
  unfold Compare.delOf
  rw [List.mem_filter, GoMap.mem_keys_iff]
  simp [Compare.absent]

/-- The changed keys the first loop appends: those present in both maps whose
values `!=` reports as different. -/
theorem Compare.mem_diffOf (xmap ymap : GoMap) (key : String) :
    key ∈ Compare.diffOf ymap xmap.entries ↔
      ∃ value val, xmap.get? key = some value ∧ ymap.get? key = some val ∧
        ifaceNe val value = Outcome.ret true := by
  unfold Compare.diffOf
  rw [List.mem_map]
  constructor
  · rintro ⟨kv, hkv, rfl⟩
    obtain ⟨hmem, hd⟩ := List.mem_filter.1 hkv
    refine ⟨kv.2, ?_⟩
    have hx := GoMap.get?_of_mem xmap kv.1 kv.2 hmem
    unfold Compare.entryDiffers at hd
    cases hy : ymap.get? kv.1 with
    | none => simp [hy] at hd
    | some val =>
      refine ⟨val, hx, rfl, ?_⟩
      simpa [hy] using hd
  · rintro ⟨value, val, hx, hy, hne⟩
    refine ⟨(key, value), List.mem_filter.2 ⟨GoMap.mem_of_get? xmap key value hx, ?_⟩, rfl⟩
    simp [Compare.entryDiffers, hy, hne]

/-- The first loop panics exactly when the maps share a key that holds a
sequence on both sides or a nested map on both sides. -/
theorem Compare.any_entryPanics_iff (xmap ymap : GoMap) :
    xmap.entries.any (Compare.entryPanics ymap) = true ↔ ¬ GoMap.NoSharedNested xmap ymap := by
  rw [List.any_eq_true]
  constructor
  · rintro ⟨kv, hmem, hp⟩ hno
    have hx := GoMap.get?_of_mem xmap kv.1 kv.2 hmem
    unfold Compare.entryPanics at hp
    cases hy : ymap.get? kv.1 with
    | none => simp [hy] at hp
    | some val =>
      have hpanic : ifaceNe val kv.2 = Outcome.panic := by simpa [hy] using hp
      have := hno kv.1 kv.2 val hx hy
      rw [(ifaceNe_panic_iff val kv.2).1 hpanic] at this
      cases this
  · intro hno
    unfold GoMap.NoSharedNested at hno
    push_neg at hno
    obtain ⟨key, value, val, hx, hy, hk⟩ := hno
    have hk2 : Value.sameNestedKind val value = true := by simpa using hk
    refine ⟨(key, value), GoMap.mem_of_get? xmap key value hx, ?_⟩
    simp [Compare.entryPanics, hy, (ifaceNe_panic_iff val value).2 hk2]

/-- The comparison of two decoded maps in closed form. -/
theorem Compare.reconcile_eq (xmap ymap : GoMap) :
    Compare.reconcile xmap ymap =
      if xmap.entries.any (Compare.entryPanics ymap) then Outcome.panic
      else if (Compare.newOf xmap ymap.entries).length == 0 &&
          (Compare.delOf ymap xmap.entries).length == 0 &&
          (Compare.diffOf ymap xmap.entries).length == 0 then
        Outcome.ret ⟨true, none, none, none, none⟩
      else
        Outcome.ret ⟨false, some (Compare.newOf xmap ymap.entries),
          some (Compare.delOf ymap xmap.entries), some (Compare.diffOf ymap xmap.entries), none⟩ := by
  unfold Compare.reconcile
  rw [Compare.delDiffLoop_eq]
  by_cases hany : xmap.entries.any (Compare.entryPanics ymap) = true
  · rw [if_pos hany, if_pos hany]
  · rw [if_neg hany, if_neg hany]
    simp only [Compare.newLoop_eq, List.nil_append]

/-- The comparison of two decoded maps returns a result exactly when they
share no key with a sequence on both sides or a nested map on both sides. -/
theorem Compare.reconcile_returns_iff (xmap ymap : GoMap) :
    (∃ r, Compare.reconcile xmap ymap = Outcome.ret r) ↔ GoMap.NoSharedNested xmap ymap := by
  rw [Compare.reconcile_eq]
  by_cases hany : xmap.entries.any (Compare.entryPanics ymap) = true
  · rw [if_pos hany]
    have := (Compare.any_entryPanics_iff xmap ymap).1 hany
    simp [this]
  · rw [if_neg hany]
    have hno : GoMap.NoSharedNested xmap ymap := by
      by_contra hc
      exact hany ((Compare.any_entryPanics_iff xmap ymap).2 hc)
    constructor
    · intro _
      exact hno
    · intro _
      split
      · exact ⟨_, rfl⟩
      · exact ⟨_, rfl⟩

/-- What the comparison of two decoded maps returns classifies the keys, has
no error, and has `equal = true` exactly when no key is listed. -/
theorem Compare.reconcile_classifies (xmap ymap : GoMap) (r : DiffResult)
    (h : Compare.reconcile xmap ymap = Outcome.ret r) :
    r.Classifies xmap ymap ∧ r.err = none ∧
      (r.equal = true ↔ sliceElems r.newKeys = [] ∧ sliceElems r.delKeys = [] ∧
        sliceElems r.diffValueKeys = []) := by
  rw [Compare.reconcile_eq] at h
  by_cases hany : xmap.entries.any (Compare.entryPanics ymap) = true
  · rw [if_pos hany] at h
    cases h
  · rw [if_neg hany] at h
    have nd1 : (Compare.newOf xmap ymap.entries).Nodup := ymap.nodup.filter _
    have nd2 : (Compare.delOf ymap xmap.entries).Nodup := xmap.nodup.filter _
    have nd3 : (Compare.diffOf ymap xmap.entries).Nodup :=
      List.Nodup.sublist ((List.filter_sublist xmap.entries).map Prod.fst) xmap.nodup
    split at h
    · rename_i hc
      injection h with h
      subst h
      have hc2 : Compare.newOf xmap ymap.entries = [] ∧ Compare.delOf ymap xmap.entries = [] ∧
          Compare.diffOf ymap xmap.entries = [] := by
        simpa [and_assoc] using hc
      refine ⟨⟨?_, ?_, ?_, ?_⟩, rfl, ?_⟩
      · intro k
        rw [← Compare.mem_newOf, hc2.1]
        rfl
      · intro k
        rw [← Compare.mem_delOf, hc2.2.1]
        rfl
      · intro k
        rw [← Compare.mem_diffOf, hc2.2.2]
        rfl
      · simp [sliceElems]
      · simp [sliceElems]
    · rename_i hc
      injection h with h
      subst h
      refine ⟨⟨?_, ?_, ?_, nd1, nd2, nd3⟩, rfl, ?_⟩
      · intro k
        exact Compare.mem_newOf xmap ymap k
      · intro k
        exact Compare.mem_delOf xmap ymap k
      · intro k
        exact Compare.mem_diffOf xmap ymap k
      · simp only [sliceElems]
        constructor
        · intro hf
          cases hf
        · rintro ⟨h1, h2, h3⟩
          exact absurd (by simp [h1, h2, h3]) hc

/-- What the comparison of two decoded maps returns carries key slices only
with a real difference. -/
theorem Compare.reconcile_keys (xmap ymap : GoMap) (r : DiffResult)
    (h : Compare.reconcile xmap ymap = Outcome.ret r) : r.KeysOnlyWithDifference := by
  rw [Compare.reconcile_eq] at h
  by_cases hany : xmap.entries.any (Compare.entryPanics ymap) = true
  · rw [if_pos hany] at h
    cases h
  · rw [if_neg hany] at h
    split at h
    · injection h with h
      subst h
      simp [DiffResult.KeysOnlyWithDifference]
    · rename_i hc
      injection h with h
      subst h
      unfold DiffResult.KeysOnlyWithDifference
      refine ⟨?_, ?_⟩
      · rintro (h1 | h1)
        · exact absurd rfl h1
        · cases h1
      · intro _
        refine ⟨rfl, rfl, by simp, by simp, by simp, ?_⟩
        show 0 < (Compare.newOf xmap ymap.entries).length +
          (Compare.delOf ymap xmap.entries).length + (Compare.diffOf ymap xmap.entries).length
        by_contra hz
        apply hc
        have hz2 : (Compare.newOf xmap ymap.entries).length = 0 ∧
            (Compare.delOf ymap xmap.entries).length = 0 ∧
            (Compare.diffOf ymap xmap.entries).length = 0 := by omega
        simp [hz2.1, hz2.2.1, hz2.2.2]

/-- A failed call carries no key slices. -/
theorem Compare.fail_keys (err : GoError) : (Compare.fail err).KeysOnlyWithDifference := by
  simp [DiffResult.KeysOnlyWithDifference, Compare.fail]

/-- A result that classifies the keys lists no key twice across its slices. -/
theorem DiffResult.Classifies.disjoint (xmap ymap : GoMap) (r : DiffResult)
    (h : r.Classifies xmap ymap) : r.KeysDisjoint := by
  obtain ⟨hnew, hdel, hdiff, -⟩ := h
  refine ⟨?_, ?_, ?_⟩
  · intro k h1 h2
    have a := (hnew k).1 h1
    have b := (hdel k).1 h2
    rw [a.1] at b
    simp at b
  · intro k h1 h2
    have a := (hnew k).1 h1
    obtain ⟨value, val, hx, -, -⟩ := (hdiff k).1 h2
    rw [a.1] at hx
    cases hx
  · intro k h1 h2
    have a := (hdel k).1 h1
    obtain ⟨value, val, -, hy, -⟩ := (hdiff k).1 h2
    rw [a.2] at hy
    cases hy

/-- The absence of a shared nested key does not depend on the order of the maps. -/
theorem GoMap.NoSharedNested.symm (xmap ymap : GoMap) (h : GoMap.NoSharedNested xmap ymap) :
    GoMap.NoSharedNested ymap xmap := by
  intro key value val hy hx
  rw [Value.sameNestedKind_comm]
  exact h key val value hx hy

/-- A map of scalars shares no nested key with any map. -/
theorem GoMap.AllScalar.noSharedNested_left (xmap ymap : GoMap) (h : xmap.AllScalar) :
    GoMap.NoSharedNested xmap ymap := by
  intro key value val hx _
  exact Value.sameNestedKind_of_scalar val value (h _ (GoMap.mem_of_get? xmap key value hx))

/-- No map shares a nested key with a map of scalars. -/
theorem GoMap.AllScalar.noSharedNested_right (xmap ymap : GoMap) (h : ymap.AllScalar) :
    GoMap.NoSharedNested xmap ymap :=
  GoMap.NoSharedNested.symm ymap xmap (GoMap.AllScalar.noSharedNested_left ymap xmap h)

/-- In a returned result a key present in both maps with values that `==`
reports as equal is in none of the three slices. -/
theorem Compare.reconcile_unchanged (xmap ymap : GoMap) (r : DiffResult)
    (h : Compare.reconcile xmap ymap = Outcome.ret r) (key : String) (value val : Value)
    (hx : xmap.get? key = some value) (hy : ymap.get? key = some val)
    (heq : ifaceEq val value = Outcome.ret true) :
    key ∉ sliceElems r.newKeys ∧ key ∉ sliceElems r.delKeys ∧
      key ∉ sliceElems r.diffValueKeys := by
  obtain ⟨⟨hnew, hdel, hdiff, -⟩, -, -⟩ := Compare.reconcile_classifies xmap ymap r h
  refine ⟨?_, ?_, ?_⟩
  · intro hk
    have := ((hnew key).1 hk).1
    rw [hx] at this
    cases this
  · intro hk
    have := ((hdel key).1 hk).2
    rw [hy] at this
    cases this
  · intro hk
    obtain ⟨value2, val2, hx2, hy2, hne⟩ := (hdiff key).1 hk
    rw [hx] at hx2
    rw [hy] at hy2
    cases hx2
    cases hy2
    rw [ifaceNe_true_iff, heq] at hne
    cases hne

/-- When the maps share no nested key the comparison returns, and its `equal`
flag says whether the maps have the same keys with equal values. -/
theorem Compare.reconcile_decides (xmap ymap : GoMap) (hflat : GoMap.NoSharedNested xmap ymap) :
    ∃ r, Compare.reconcile xmap ymap = Outcome.ret r ∧ r.err = none ∧
      (r.equal = true ↔ GoMap.SameDocument xmap ymap) := by
  obtain ⟨r, h⟩ := (Compare.reconcile_returns_iff xmap ymap).2 hflat
  obtain ⟨⟨hnew, hdel, hdiff, -⟩, herr, he⟩ := Compare.reconcile_classifies xmap ymap r h
  refine ⟨r, h, herr, ?_⟩
  rw [he]
  simp only [List.eq_nil_iff_forall_not_mem]
  constructor
  · rintro ⟨a, b, c⟩
    constructor
    · intro key
      cases hx : xmap.get? key with
      | none =>
        cases hy : ymap.get? key with
        | none => rfl
        | some val => exact absurd ((hnew key).2 ⟨hx, by simp [hy]⟩) (a key)
      | some value =>
        cases hy : ymap.get? key with
        | none => exact absurd ((hdel key).2 ⟨by simp [hx], hy⟩) (b key)
        | some val => rfl
    · intro key value val hx hy
      rw [ifaceEq_comm]
      cases hq : ifaceEq val value with
      | panic =>
        have := hflat key value val hx hy
        rw [(ifaceEq_panic_iff val value).1 hq] at this
        cases this
      | ret q =>
        cases q with
        | true => rfl
        | false =>
          exact absurd ((hdiff key).2 ⟨value, val, hx, hy, (ifaceNe_true_iff val value).2 hq⟩)
            (c key)
  · rintro ⟨hkeys, hvals⟩
    refine ⟨?_, ?_, ?_⟩
    · intro key hk
      obtain ⟨hx, hy⟩ := (hnew key).1 hk
      have := hkeys key
      rw [hx, hy] at this
      cases this
    · intro key hk
      obtain ⟨hx, hy⟩ := (hdel key).1 hk
      have := hkeys key
      rw [hx, hy] at this
      cases this
    · intro key hk
      obtain ⟨value, val, hx, hy, hne⟩ := (hdiff key).1 hk
      have h1 := hvals key value val hx hy
      rw [ifaceEq_comm] at h1
      rw [ifaceNe_true_iff, h1] at hne
      cases hne

/-! ## More properties of Compare -/

/-- C13: if `x` is nil, `Compare` fails with "x is nil item" whatever `y` is;
if `x` is non-nil and `y` is nil, it fails with "y is nil item" whatever the
content of `x`; in both cases `equal = false` and the key slices are nil, and
no library call decides the result. Both variants. -/
theorem Compare_nil_inputs (J : JsonLib) (Y : YamlLib) (y : Buffer) (xb : List Byte) :
    JsonCompares.Compare J none y =
      Outcome.ret ⟨false, none, none, none, some (GoError.errorsNew "x is nil item")⟩ ∧
    YamlCompares.Compare Y none y =
      Outcome.ret ⟨false, none, none, none, some (GoError.errorsNew "x is nil item")⟩ ∧
    JsonCompares.Compare J (some xb) none =
      Outcome.ret ⟨false, none, none, none, some (GoError.errorsNew "y is nil item")⟩ ∧
    YamlCompares.Compare Y (some xb) none =
      Outcome.ret ⟨false, none, none, none, some (GoError.errorsNew "y is nil item")⟩ :=
  ⟨rfl, rfl, rfl, rfl⟩

/-- C13, at a concrete input: the malformed JSON text `{` as `x` with a nil
`y` fails with "y is nil item", not with a validation error. -/
theorem Compare_nil_inputs_witness :
    sampleJson.Valid jsonBroken = false ∧
    JsonCompares.Compare sampleJson (some jsonBroken) none =
      Outcome.ret ⟨false, none, none, none, some (GoError.errorsNew "y is nil item")⟩ :=
  ⟨by decide, (Compare_nil_inputs sampleJson sampleYaml none jsonBroken).2.2.1⟩

/-- C15: in every result that `Compare` returns, with or without an error, no
key is in two of the slices of new, deleted and changed keys. Both variants. -/
theorem Compare_keys_disjoint (J : JsonLib) (Y : YamlLib) (x y : Buffer) :
    (∀ r, JsonCompares.Compare J x y = Outcome.ret r → r.KeysDisjoint) ∧
    (∀ r, YamlCompares.Compare Y x y = Outcome.ret r → r.KeysDisjoint) := by
  have hfail : ∀ err, (Compare.fail err).KeysDisjoint := by
    intro err
    simp [DiffResult.KeysDisjoint, Compare.fail, sliceElems]
  constructor
  · intro r hr
    rcases JsonCompares.Compare_json_cases J x y with ⟨err, he⟩ | ⟨xb, yb, mx, my, -, -, -, -, hc⟩
    · rw [he] at hr
      injection hr with hr
      subst hr
      exact hfail err
    · rw [hc] at hr
      exact DiffResult.Classifies.disjoint mx my r (Compare.reconcile_classifies mx my r hr).1
  · intro r hr
    rcases YamlCompares.Compare_yaml_cases Y x y with ⟨err, he⟩ | ⟨xb, yb, mx, my, -, -, -, -, hc⟩
    · rw [he] at hr
      injection hr with hr
      subst hr
      exact hfail err
    · rw [hc] at hr
      exact DiffResult.Classifies.disjoint mx my r (Compare.reconcile_classifies mx my r hr).1

/-- C15, at a concrete input: the slices returned for `{"a":1,"b":2}` and
`{"b":2,"c":3}` are pairwise disjoint. -/
theorem Compare_keys_disjoint_witness :
    DiffResult.KeysDisjoint ⟨false, some ["c"], some ["a"], some [], none⟩ :=
  (Compare_keys_disjoint sampleJson sampleYaml (some jsonAB) (some jsonBC)).1 _ (by decide)

/-- C16, on the code: the document `{"a":[1]}` (JSON) and the document
`a: [1]` (YAML) compared with themselves hold the key `a` with equal values on
both sides, and `Compare` panics instead of returning a result that leaves
`a` out of the three slices. -/
theorem Compare_equal_sequences_panic :
    JsonCompares.Compare sampleJson (some jsonSeq1) (some jsonSeq1) = Outcome.panic ∧
    YamlCompares.Compare sampleYaml (some yamlSeq1) (some yamlSeq1) = Outcome.panic := by
  decide

/-- C17: for all non-nil `x` and `y` that decode to top-level maps in which no
shared key holds a sequence on both sides or a nested map on both sides, the
comparison `val != value` never panics on a shared key and `Compare` returns a
result, with a nil error. Both variants. -/
theorem Compare_flat_returns (J : JsonLib) (Y : YamlLib) (x y : List Byte) (mx my : GoMap)
    (hflat : GoMap.NoSharedNested mx my) :
    (∀ key value val, mx.get? key = some value → my.get? key = some val →
      ifaceNe val value ≠ Outcome.panic) ∧
    (J.Unmarshal x = Except.ok mx → J.Unmarshal y = Except.ok my →
      ∃ r, JsonCompares.Compare J (some x) (some y) = Outcome.ret r ∧ r.err = none) ∧
    (Y.Unmarshal x = Except.ok mx → Y.Unmarshal y = Except.ok my →
      ∃ r, YamlCompares.Compare Y (some x) (some y) = Outcome.ret r ∧ r.err = none) := by
  obtain ⟨r, hr, herr, -⟩ := Compare.reconcile_decides mx my hflat
  refine ⟨?_, ?_, ?_⟩
  · intro key value val hx hy hp
    have := hflat key value val hx hy
    rw [(ifaceNe_panic_iff val value).1 hp] at this
    cases this
  · intro hx hy
    rw [JsonCompares.Compare_json_decoded J x y mx my hx hy]
    exact ⟨r, hr, herr⟩
  · intro hx hy
    rw [YamlCompares.Compare_yaml_decoded Y x y mx my hx hy]
    exact ⟨r, hr, herr⟩

/-- C17, at a concrete input: `{"a":[1]}` and `{"a":1}` hold a sequence on one
side only, and `Compare` returns a result for them. -/
theorem Compare_flat_returns_witness :
    ∃ r, JsonCompares.Compare sampleJson (some jsonSeq1) (some jsonA1) = Outcome.ret r ∧
      r.err = none :=
  (Compare_flat_returns sampleJson sampleYaml jsonSeq1 jsonA1
    ⟨[("a", .seq [.float64 0x3FF0000000000000])], by decide⟩
    ⟨[("a", .float64 0x3FF0000000000000)], by decide⟩
    (GoMap.AllScalar.noSharedNested_right _ _ (by unfold GoMap.AllScalar; decide))).2.1 rfl rfl

/-- Whether a bit pattern is a NaN depends on its low 64 bits only. -/
theorem f64IsNaN_congr (a b : Nat) (h : a % 2 ^ 64 = b % 2 ^ 64) :
    f64IsNaN a = f64IsNaN b := by
  have ha : a % 2 ^ 52 = (a % 2 ^ 64) % 2 ^ 52 :=
    (Nat.mod_mod_of_dvd a (Nat.pow_dvd_pow 2 (by decide : 52 ≤ 64))).symm
  have hb : b % 2 ^ 52 = (b % 2 ^ 64) % 2 ^ 52 :=
    (Nat.mod_mod_of_dvd b (Nat.pow_dvd_pow 2 (by decide : 52 ≤ 64))).symm
  unfold f64IsNaN
  rw [ha, hb, h]

/-- A zero is not a NaN. -/
theorem f64IsNaN_of_zero (a : Nat) (h : f64IsZero a = true) : f64IsNaN a = false := by
  have hz : a % 2 ^ 63 = 0 := by simpa [f64IsZero] using h
  have hne : ((a % 2 ^ 64) / 2 ^ 52) % 2 ^ 11 ≠ 2047 := by
    norm_num at hz ⊢
    omega
  have hb : ((a % 2 ^ 64 / 2 ^ 52) % 2 ^ 11 == 2047) = false := by simpa using hne
  unfold f64IsNaN
  rw [hb]
  rfl

/-- Go's `==` on two `float64` in words: the same 64 bits and not a NaN, or
two zeros. -/
theorem f64Eq_iff (a b : Nat) :
    f64Eq a b = true ↔
      (a % 2 ^ 64 = b % 2 ^ 64 ∧ f64IsNaN a = false) ∨
        (f64IsZero a = true ∧ f64IsZero b = true) := by
  constructor
  · intro h
    have h' : (f64IsNaN a = false ∧ f64IsNaN b = false) ∧
        (a % 2 ^ 64 = b % 2 ^ 64 ∨ f64IsZero a = true ∧ f64IsZero b = true) := by
      simpa [f64Eq] using h
    rcases h'.2 with hbits | hz
    · exact Or.inl ⟨hbits, h'.1.1⟩
    · exact Or.inr hz
  · rintro (⟨hbits, hn⟩ | ⟨hza, hzb⟩)
    · have hnb : f64IsNaN b = false := by rw [← f64IsNaN_congr a b hbits]; exact hn
      simp only [f64Eq, hn, hnb, Bool.not_false, Bool.true_and, Bool.or_eq_true, beq_iff_eq,
        Bool.and_eq_true]
      exact Or.inl hbits
    · simp [f64Eq, f64IsNaN_of_zero a hza, f64IsNaN_of_zero b hzb, hza, hzb]

/-- Go's `==` on two interface values reports equality exactly when they are
the same scalar and not NaN, or two `float64` zeros. -/
theorem ifaceEq_true_iff (value val : Value) :
    ifaceEq value val = Outcome.ret true ↔
      (Value.SameScalar value val ∧ value.isNaN = false) ∨
        (value.isFloatZero = true ∧ val.isFloatZero = true) := by
  cases value <;> cases val <;>
    simp [ifaceEq, Value.SameScalar, Value.isNaN, Value.isFloatZero, f64Eq_iff]

/-- The comparison `==` runs under every key amounts to sameness of the
scalars up to the two rules for `float64`. -/
theorem GoMap.SameDocument_iff (xmap ymap : GoMap) :
    GoMap.SameDocument xmap ymap ↔ GoMap.SameScalarsUpToFloats xmap ymap := by
  unfold GoMap.SameDocument GoMap.SameScalarsUpToFloats
  simp only [ifaceEq_true_iff]

/-- A scalar is the same scalar as itself. -/
theorem Value.SameScalar_self (v : Value) (hs : v.isScalar = true) : Value.SameScalar v v := by
  cases v <;> simp_all [Value.SameScalar, Value.isScalar]

/-- A map of scalars holds the same scalars as itself. -/
theorem GoMap.SameScalars_self (m : GoMap) (hs : m.AllScalar) : GoMap.SameScalars m m := by
  refine ⟨fun _ => rfl, ?_⟩
  intro key value val h1 h2
  rw [h1] at h2
  cases h2
  exact Value.SameScalar_self value (hs _ (GoMap.mem_of_get? m key value h1))

/-- C18, refuted as stated: the YAML document `a: .nan` decodes to a map of
scalars; compared with itself the two maps have the same keys and hold the
same scalar under every key, and `Compare` returns `equal = false` with the
key `a` as changed. -/
theorem Compare_nan_document_not_equal :
    GoMap.AllScalar ⟨[("a", .float64 0x7FF8000000000001)], by decide⟩ ∧
    GoMap.SameScalars ⟨[("a", .float64 0x7FF8000000000001)], by decide⟩
      ⟨[("a", .float64 0x7FF8000000000001)], by decide⟩ ∧
    sampleYaml.Unmarshal yamlNaN =
      Except.ok ⟨[("a", .float64 0x7FF8000000000001)], by decide⟩ ∧
    YamlCompares.Compare sampleYaml (some yamlNaN) (some yamlNaN) =
      Outcome.ret ⟨false, some [], some [], some ["a"], none⟩ := by
  have hs : GoMap.AllScalar ⟨[("a", .float64 0x7FF8000000000001)], by decide⟩ := by
    unfold GoMap.AllScalar
    decide
  exact ⟨hs, GoMap.SameScalars_self _ hs, rfl, by decide⟩

/-- C18, amended: for all non-nil `x` and `y` that decode to top-level maps
`mx` and `my` whose values are all scalars, `Compare` returns a result whose
`equal` flag is true if and only if `mx` and `my` have the same keys and under
every key hold the same scalar, which is not NaN, or two `float64` zeros; and
the flag is the same for any other buffers that decode to the same two maps,
whatever the order of their keys. Both variants. -/
theorem Compare_equal_decides_scalar_documents (J : JsonLib) (Y : YamlLib) (x y : List Byte)
    (mx my : GoMap) (hsx : mx.AllScalar) (hsy : my.AllScalar) :
    (J.Unmarshal x = Except.ok mx → J.Unmarshal y = Except.ok my →
      ∃ r, JsonCompares.Compare J (some x) (some y) = Outcome.ret r ∧
        (r.equal = true ↔ GoMap.SameScalarsUpToFloats mx my)) ∧
    (Y.Unmarshal x = Except.ok mx → Y.Unmarshal y = Except.ok my →
      ∃ r, YamlCompares.Compare Y (some x) (some y) = Outcome.ret r ∧
        (r.equal = true ↔ GoMap.SameScalarsUpToFloats mx my)) ∧
    (∀ (x2 y2 : List Byte) (mx2 my2 : GoMap),
      (∀ key, mx2.get? key = mx.get? key) → (∀ key, my2.get? key = my.get? key) →
      (J.Unmarshal x = Except.ok mx → J.Unmarshal y = Except.ok my →
        J.Unmarshal x2 = Except.ok mx2 → J.Unmarshal y2 = Except.ok my2 →
        ∃ r r2, JsonCompares.Compare J (some x) (some y) = Outcome.ret r ∧
          JsonCompares.Compare J (some x2) (some y2) = Outcome.ret r2 ∧ r2.equal = r.equal) ∧
      (Y.Unmarshal x = Except.ok mx → Y.Unmarshal y = Except.ok my →
        Y.Unmarshal x2 = Except.ok mx2 → Y.Unmarshal y2 = Except.ok my2 →
        ∃ r r2, YamlCompares.Compare Y (some x) (some y) = Outcome.ret r ∧
          YamlCompares.Compare Y (some x2) (some y2) = Outcome.ret r2 ∧ r2.equal = r.equal)) := by
  have hflat : GoMap.NoSharedNested mx my := GoMap.AllScalar.noSharedNested_right mx my hsy
  have _ := hsx
  obtain ⟨r, hr, -, he⟩ := Compare.reconcile_decides mx my hflat
  rw [GoMap.SameDocument_iff] at he
  refine ⟨?_, ?_, ?_⟩
  · intro hx hy
    rw [JsonCompares.Compare_json_decoded J x y mx my hx hy]
    exact ⟨r, hr, he⟩
  · intro hx hy
    rw [YamlCompares.Compare_yaml_decoded Y x y mx my hx hy]
    exact ⟨r, hr, he⟩
  · intro x2 y2 mx2 my2 hgx hgy
    have hflat2 : GoMap.NoSharedNested mx2 my2 := by
      intro key value val h1 h2
      rw [hgx] at h1
      rw [hgy] at h2
      exact hflat key value val h1 h2
    have hsame : GoMap.SameScalarsUpToFloats mx2 my2 ↔ GoMap.SameScalarsUpToFloats mx my := by
      unfold GoMap.SameScalarsUpToFloats
      simp only [hgx, hgy]
    obtain ⟨r2, hr2, -, he2⟩ := Compare.reconcile_decides mx2 my2 hflat2
    rw [GoMap.SameDocument_iff] at he2
    have hflag : r2.equal = r.equal := by
      have hiff : r2.equal = true ↔ r.equal = true := by rw [he2, he, hsame]
      cases h1 : r2.equal <;> cases h2 : r.equal <;> simp_all
    constructor
    · intro hx hy hx2 hy2
      rw [JsonCompares.Compare_json_decoded J x y mx my hx hy,
        JsonCompares.Compare_json_decoded J x2 y2 mx2 my2 hx2 hy2]
      exact ⟨r, r2, hr, hr2, hflag⟩
    · intro hx hy hx2 hy2
      rw [YamlCompares.Compare_yaml_decoded Y x y mx my hx hy,
        YamlCompares.Compare_yaml_decoded Y x2 y2 mx2 my2 hx2 hy2]
      exact ⟨r, r2, hr, hr2, hflag⟩

/-- C18, amended, at a concrete input: `{"a":1}` and `{"a":2}` hold different
scalars under the key `a`, and `Compare` returns `equal = false` for them. -/
theorem Compare_equal_decides_scalar_documents_witness :
    JsonCompares.Compare sampleJson (some jsonA1) (some jsonA2) =
      Outcome.ret ⟨false, some [], some [], some ["a"], none⟩ ∧
    ¬ GoMap.SameScalarsUpToFloats
      ⟨[("a", .float64 0x3FF0000000000000)], by decide⟩
      ⟨[("a", .float64 0x4000000000000000)], by decide⟩ := by
  obtain ⟨r, hr, he⟩ := (Compare_equal_decides_scalar_documents sampleJson sampleYaml
    jsonA1 jsonA2
    ⟨[("a", .float64 0x3FF0000000000000)], by decide⟩
    ⟨[("a", .float64 0x4000000000000000)], by decide⟩
    (by unfold GoMap.AllScalar; decide) (by unfold GoMap.AllScalar; decide)).1 rfl rfl
  have hval : JsonCompares.Compare sampleJson (some jsonA1) (some jsonA2) =
      Outcome.ret ⟨false, some [], some [], some ["a"], none⟩ := by decide
  refine ⟨hval, ?_⟩
  intro hsame
  have htrue := he.2 hsame
  rw [hval] at hr
  injection hr with hr
  subst hr
  cases htrue

/-- C20: in every result that `Compare` returns, a non-nil error or
`equal = true` comes with three nil key slices, and a non-nil key slice comes
with `equal = false`, a nil error, three non-nil slices and at least one key
in them. Both variants. -/
theorem Compare_keys_only_with_difference (J : JsonLib) (Y : YamlLib) (x y : Buffer) :
    (∀ r, JsonCompares.Compare J x y = Outcome.ret r → r.KeysOnlyWithDifference) ∧
    (∀ r, YamlCompares.Compare Y x y = Outcome.ret r → r.KeysOnlyWithDifference) := by
  constructor
  · intro r hr
    rcases JsonCompares.Compare_json_cases J x y with ⟨err, he⟩ | ⟨xb, yb, mx, my, -, -, -, -, hc⟩
    · rw [he] at hr
      injection hr with hr
      subst hr
      exact Compare.fail_keys err
    · rw [hc] at hr
      exact Compare.reconcile_keys mx my r hr
  · intro r hr
    rcases YamlCompares.Compare_yaml_cases Y x y with ⟨err, he⟩ | ⟨xb, yb, mx, my, -, -, -, -, hc⟩
    · rw [he] at hr
      injection hr with hr
      subst hr
      exact Compare.fail_keys err
    · rw [hc] at hr
      exact Compare.reconcile_keys mx my r hr

/-- C20, at concrete inputs: the result for two equal documents, with nil
slices, and the result for `{"a":1}` and `{"a":2}`, with non-nil slices. -/
theorem Compare_keys_only_with_difference_witness :
    DiffResult.KeysOnlyWithDifference ⟨true, none, none, none, none⟩ ∧
    DiffResult.KeysOnlyWithDifference ⟨false, some [], some [], some ["a"], none⟩ :=
  ⟨(Compare_keys_only_with_difference sampleJson sampleYaml (some jsonA1) (some jsonA1)).1 _
      (by decide),
   (Compare_keys_only_with_difference sampleJson sampleYaml (some jsonA1) (some jsonA2)).1 _
      (by decide)⟩

end Compares
